import Mathlib

/-!
Verification of the HWPX IR writer and query/editor core of pdf2hwpx.

The Python modules `pdf2hwpx/hwpx_ir/writer.py`, `pdf2hwpx/hwpx_ir/hwpx_writer.py`,
the component writers under `pdf2hwpx/hwpx_ir/components/`, and the direct-XML
query subsystem `components/query/{searcher,editor}.py` are shallowly embedded
below.  XML element trees (lxml `_Element`) are modelled as a rose tree `Elem`
of tag, attribute list, optional text and children; Python `str` is Lean
`String`; Python `int` is Lean `Int` (or `Nat` where the source value is
provably non-negative, such as the monotone ID counters); `None`-able values
are `Option`; mutation is explicit state passing.
-/

set_option maxHeartbeats 1000000

namespace Pdf2Hwpx

/-! ## ID allocation context

`HwpxIdContext` from `hwpx_ir/writer.py` (lines 42-63); the identical class
also appears in `hwpx_ir/hwpx_writer.py` (lines 45-64).  Three counters,
started at 0, 0 and 2000000000; each `next_*` returns the current value and
increments.
-/

structure HwpxIdContext where
  para_id : Nat
  tbl_id : Nat
  pic_id : Nat
  deriving DecidableEq, Repr

def HwpxIdContext.init : HwpxIdContext := ⟨0, 0, 2000000000⟩

def HwpxIdContext.next_para_id (c : HwpxIdContext) : Nat × HwpxIdContext :=
  (c.para_id, { c with para_id := c.para_id + 1 })

def HwpxIdContext.next_tbl_id (c : HwpxIdContext) : Nat × HwpxIdContext :=
  (c.tbl_id, { c with tbl_id := c.tbl_id + 1 })

def HwpxIdContext.next_pic_id (c : HwpxIdContext) : Nat × HwpxIdContext :=
  (c.pic_id, { c with pic_id := c.pic_id + 1 })

/-- A request against the allocator: which of the three counters is drawn. -/
inductive AllocKind where
  | para
  | tbl
  | pic
  deriving DecidableEq, Repr

def allocStep (c : HwpxIdContext) : AllocKind → Nat × HwpxIdContext
  | .para => c.next_para_id
  | .tbl => c.next_tbl_id
  | .pic => c.next_pic_id

/-- Run a sequence of allocations, returning each drawn id with its kind. -/
def runAllocs : HwpxIdContext → List AllocKind → List (AllocKind × Nat)
  | _, [] => []
  | c, k :: ks =>
    let r := allocStep c k
    (k, r.1) :: runAllocs r.2 ks

def idsFor (k : AllocKind) (l : List (AllocKind × Nat)) : List Nat :=
  (l.filter (fun p => p.1 = k)).map (·.2)

/-- The counter of the context that kind `k` draws from. -/
def ctr : AllocKind → HwpxIdContext → Nat
  | .para, c => c.para_id
  | .tbl, c => c.tbl_id
  | .pic, c => c.pic_id

theorem allocStep_fst (c : HwpxIdContext) (k : AllocKind) :
    (allocStep c k).1 = ctr k c := by
  cases k <;> rfl

theorem ctr_allocStep_self (c : HwpxIdContext) (k : AllocKind) :
    ctr k (allocStep c k).2 = ctr k c + 1 := by
  cases k <;> rfl

theorem ctr_allocStep_other (c : HwpxIdContext) (k k' : AllocKind) (h : k' ≠ k) :
    ctr k (allocStep c k').2 = ctr k c := by
  cases k <;> cases k' <;> first | rfl | exact absurd rfl h

theorem ctr_allocStep_ge (c : HwpxIdContext) (k k' : AllocKind) :
    ctr k c ≤ ctr k (allocStep c k').2 := by
  by_cases h : k' = k
  · subst h; rw [ctr_allocStep_self]; omega
  · rw [ctr_allocStep_other c k k' h]

theorem idsFor_nil (k : AllocKind) : idsFor k [] = [] := rfl

theorem idsFor_cons_self (k : AllocKind) (n : Nat) (l : List (AllocKind × Nat)) :
    idsFor k ((k, n) :: l) = n :: idsFor k l := by
  simp [idsFor]

theorem idsFor_cons_ne (k k' : AllocKind) (h : k' ≠ k) (n : Nat)
    (l : List (AllocKind × Nat)) :
    idsFor k ((k', n) :: l) = idsFor k l := by
  simp [idsFor, h]

theorem runAllocs_cons (c : HwpxIdContext) (k : AllocKind) (ks : List AllocKind) :
    runAllocs c (k :: ks) = (k, (allocStep c k).1) :: runAllocs (allocStep c k).2 ks := rfl

theorem idsFor_runAllocs_lb (k : AllocKind) :
    ∀ (ks : List AllocKind) (c : HwpxIdContext),
      ∀ x ∈ idsFor k (runAllocs c ks), ctr k c ≤ x := by
  intro ks
  induction ks with
  | nil => intro c x hx; simp [runAllocs, idsFor_nil] at hx
  | cons k' ks ih =>
    intro c x hx
    rw [runAllocs_cons] at hx
    by_cases hk : k' = k
    · subst hk
      rw [idsFor_cons_self, List.mem_cons] at hx
      rcases hx with hx | hx
      · rw [hx, allocStep_fst]
      · have := ih (allocStep c k').2 x hx
        calc ctr k' c ≤ ctr k' (allocStep c k').2 := ctr_allocStep_ge c k' k'
          _ ≤ x := this
    · rw [idsFor_cons_ne k k' hk] at hx
      have := ih (allocStep c k').2 x hx
      calc ctr k c ≤ ctr k (allocStep c k').2 := ctr_allocStep_ge c k k'
        _ ≤ x := this

theorem idsFor_runAllocs_pairwise (k : AllocKind) :
    ∀ (ks : List AllocKind) (c : HwpxIdContext),
      List.Pairwise (· < ·) (idsFor k (runAllocs c ks)) := by
  intro ks
  induction ks with
  | nil => intro c; simp [runAllocs, idsFor_nil]
  | cons k' ks ih =>
    intro c
    rw [runAllocs_cons]
    by_cases hk : k' = k
    · subst hk
      rw [idsFor_cons_self]
      refine List.Pairwise.cons ?_ (ih (allocStep c k').2)
      intro y hy
      have hlb := idsFor_runAllocs_lb k' ks (allocStep c k').2 y hy
      rw [ctr_allocStep_self] at hlb
      rw [allocStep_fst]
      omega
    · rw [idsFor_cons_ne k k' hk]
      exact ih (allocStep c k').2

theorem idsFor_runAllocs_ub (k : AllocKind) :
    ∀ (ks : List AllocKind) (c : HwpxIdContext),
      ∀ x ∈ idsFor k (runAllocs c ks), x < ctr k c + ks.count k := by
  intro ks
  induction ks with
  | nil => intro c x hx; simp [runAllocs, idsFor_nil] at hx
  | cons k' ks ih =>
    intro c x hx
    rw [runAllocs_cons] at hx
    by_cases hk : k' = k
    · subst hk
      rw [idsFor_cons_self, List.mem_cons] at hx
      rw [List.count_cons_self]
      rcases hx with hx | hx
      · rw [hx, allocStep_fst]; omega
      · have := ih (allocStep c k').2 x hx
        rw [ctr_allocStep_self] at this
        omega
    · rw [idsFor_cons_ne k k' hk] at hx
      have := ih (allocStep c k').2 x hx
      rw [ctr_allocStep_other c k k' hk] at this
      rw [List.count_cons_of_ne (fun h => hk h.symm)]
      exact this

/-- C2: over any allocation sequence on one fresh `HwpxIdContext`, the
paragraph ids are pairwise distinct (strictly increasing), likewise the table
ids and the picture ids; and, as long as fewer than 2000000000 paragraph and
table ids are drawn in total, no picture id collides with any paragraph or
table id.  Each counter is a pure increment-and-return with no reuse. -/
theorem id_context_allocation_unique (ops : List AllocKind) :
    List.Pairwise (· < ·) (idsFor .para (runAllocs HwpxIdContext.init ops)) ∧
    List.Pairwise (· < ·) (idsFor .tbl (runAllocs HwpxIdContext.init ops)) ∧
    List.Pairwise (· < ·) (idsFor .pic (runAllocs HwpxIdContext.init ops)) ∧
    (ops.count .para + ops.count .tbl < 2000000000 →
      ∀ p ∈ idsFor .pic (runAllocs HwpxIdContext.init ops),
        p ∉ idsFor .para (runAllocs HwpxIdContext.init ops) ∧
        p ∉ idsFor .tbl (runAllocs HwpxIdContext.init ops)) := by
  refine ⟨idsFor_runAllocs_pairwise .para ops _, idsFor_runAllocs_pairwise .tbl ops _,
    idsFor_runAllocs_pairwise .pic ops _, ?_⟩
  intro hcount p hp
  have hpic := idsFor_runAllocs_lb .pic ops HwpxIdContext.init p hp
  have hpic' : 2000000000 ≤ p := hpic
  constructor
  · intro hmem
    have := idsFor_runAllocs_ub .para ops HwpxIdContext.init p hmem
    have hc : ctr .para HwpxIdContext.init = 0 := rfl
    rw [hc] at this
    omega
  · intro hmem
    have := idsFor_runAllocs_ub .tbl ops HwpxIdContext.init p hmem
    have hc : ctr .tbl HwpxIdContext.init = 0 := rfl
    rw [hc] at this
    omega

/-- Witness for C2 at the concrete allocation sequence para, pic, tbl, para. -/
theorem id_context_allocation_unique_witness :
    2000000000 ∉ idsFor .para (runAllocs HwpxIdContext.init [.para, .pic, .tbl, .para]) ∧
    2000000000 ∉ idsFor .tbl (runAllocs HwpxIdContext.init [.para, .pic, .tbl, .para]) :=
  (id_context_allocation_unique [.para, .pic, .tbl, .para]).2.2.2 (by decide)
    2000000000 (by decide)

/-! ## XML element model

lxml `_Element` values are modelled as a rose tree: tag, attribute list (in
document order; `set` replaces an existing attribute or appends a new one,
as lxml does), optional text and child list.
-/

inductive Elem where
  | mk (tag : String) (attrs : List (String × String)) (text : Option String)
      (children : List Elem)
  deriving Repr

def Elem.tag : Elem → String
  | .mk t _ _ _ => t

def Elem.attrs : Elem → List (String × String)
  | .mk _ a _ _ => a

def Elem.text : Elem → Option String
  | .mk _ _ x _ => x

def Elem.children : Elem → List Elem
  | .mk _ _ _ cs => cs

mutual

def Elem.beq : Elem → Elem → Bool
  | .mk t1 a1 x1 c1, .mk t2 a2 x2 c2 =>
    t1 = t2 && a1 = a2 && x1 = x2 && Elem.beqList c1 c2

def Elem.beqList : List Elem → List Elem → Bool
  | [], [] => true
  | a :: as, b :: bs => Elem.beq a b && Elem.beqList as bs
  | _, _ => false

end

mutual

theorem Elem.beq_iff : ∀ a b : Elem, (Elem.beq a b = true) ↔ a = b
  | .mk t1 a1 x1 c1, .mk t2 a2 x2 c2 => by
    rw [Elem.beq]
    simp only [Bool.and_eq_true, decide_eq_true_eq, Elem.mk.injEq]
    rw [Elem.beqList_iff c1 c2]
    tauto

theorem Elem.beqList_iff : ∀ a b : List Elem, (Elem.beqList a b = true) ↔ a = b
  | [], [] => by simp [Elem.beqList]
  | [], _ :: _ => by simp [Elem.beqList]
  | _ :: _, [] => by simp [Elem.beqList]
  | a :: as, b :: bs => by
    rw [Elem.beqList]
    simp only [Bool.and_eq_true, List.cons.injEq]
    rw [Elem.beq_iff a b, Elem.beqList_iff as bs]

end

instance : DecidableEq Elem := fun a b => decidable_of_iff _ (Elem.beq_iff a b)

/-- lxml `element.get(key)`: first attribute with the key, else `None`. -/
def Elem.get (e : Elem) (k : String) : Option String :=
  (e.attrs.find? (fun p => p.1 = k)).map (·.2)

def setAttrList (l : List (String × String)) (k v : String) : List (String × String) :=
  if l.any (fun p => p.1 = k) then l.map (fun p => if p.1 = k then (k, v) else p)
  else l ++ [(k, v)]

/-- lxml `element.set(key, value)`. -/
def Elem.set (e : Elem) (k v : String) : Elem :=
  .mk e.tag (setAttrList e.attrs k v) e.text e.children

/-! ## Python-value helpers -/

/-- Python truthiness of an optional string (`None` and `""` are falsy). -/
def pyTruthyS : Option String → Bool
  | some s => s ≠ ""
  | none => false

/-- Python truthiness of an optional integer (`None` and `0` are falsy). -/
def pyTruthyI : Option Int → Bool
  | some n => n ≠ 0
  | none => false

def parseDigitsGo : List Char → Nat → Option Nat
  | [], acc => some acc
  | c :: cs, acc =>
    if c.isDigit then parseDigitsGo cs (acc * 10 + (c.toNat - 48)) else none

def parseDigits : List Char → Option Nat
  | [] => none
  | ds => parseDigitsGo ds 0

/-- Decimal integer parse (digits with optional leading minus), the shape of
every id attribute Python's `int(...)` is applied to in the embedded code. -/
def parseIntStr (s : String) : Option Int :=
  match s.data with
  | '-' :: ds => (parseDigits ds).map (fun n => -(n : Int))
  | ds => (parseDigits ds).map (fun n => (n : Int))

/-- Python `int(e.get(k, "0"))`; the source raises on a non-numeric attribute,
which never happens for the id attributes read here, so parse failure is
mapped to 0. -/
def attrInt (e : Elem) (k : String) : Int :=
  (parseIntStr ((e.get k).getD "0")).getD 0

/-- Python `dict` assignment `d[k] = v` on an association list with unique
keys: replace the entry with that key, or append a new one. -/
def dictPut {α β : Type} [DecidableEq α] : List (α × β) → α → β → List (α × β)
  | [], k, v => [(k, v)]
  | p :: d, k, v => if p.1 = k then (k, v) :: d else p :: dictPut d k v

/-- Python `dict` lookup `d.get(k)`. -/
def dictGet {α β : Type} [DecidableEq α] : List (α × β) → α → Option β
  | [], _ => none
  | p :: d, k => if p.1 = k then some p.2 else dictGet d k

theorem dictGet_put_self {α β : Type} [DecidableEq α] (d : List (α × β)) (k : α) (v : β) :
    dictGet (dictPut d k v) k = some v := by
  induction d with
  | nil => simp [dictPut, dictGet]
  | cons p d ih =>
    by_cases hp : p.1 = k
    · simp [dictPut, dictGet, hp]
    · simp [dictPut, dictGet, hp, ih]

theorem dictGet_put_ne {α β : Type} [DecidableEq α] (d : List (α × β)) (k k' : α) (v : β)
    (h : k' ≠ k) : dictGet (dictPut d k v) k' = dictGet d k' := by
  induction d with
  | nil =>
    have hne : ¬k = k' := fun he => h he.symm
    simp [dictPut, dictGet, hne]
  | cons p d ih =>
    by_cases hp : p.1 = k
    · rw [dictPut, if_pos hp]
      rw [dictGet, dictGet, if_neg (fun he => h he.symm), if_neg (by rw [hp]; exact fun he => h he.symm)]
    · rw [dictPut, if_neg hp]
      by_cases hp' : p.1 = k'
      · rw [dictGet, if_pos hp', dictGet, if_pos hp']
      · rw [dictGet, if_neg hp', dictGet, if_neg hp', ih]

/-! ## IR text runs (`models.py`, `IrTextRun`) -/

structure IrTextRun where
  text : String
  bold : Bool := false
  italic : Bool := false
  underline : Bool := false
  strikethrough : Bool := false
  font_size : Option Int := none
  font_family : Option String := none
  color : Option String := none
  background_color : Option String := none
  deriving DecidableEq, Repr

/-- The character-style signature `(bold, italic, size, font, color)` used by
the style deduplicator (`hwpx_writer.py` line 128). -/
def charSig (run : IrTextRun) : Bool × Bool × Option Int × Option String × Option String :=
  (run.bold, run.italic, run.font_size, run.font_family, run.color)

/-- The all-default test of `hwpx_writer.py` line 125:
`not run.bold and not run.italic and run.font_size is None and
run.font_family is None and run.color is None`. -/
def IrTextRun.isDefaultSig (run : IrTextRun) : Bool :=
  !run.bold && !run.italic && run.font_size = none && run.font_family = none
    && run.color = none

theorem isDefaultSig_iff_charSig (run : IrTextRun) :
    run.isDefaultSig = true ↔ charSig run = (false, false, none, none, none) := by
  unfold IrTextRun.isDefaultSig charSig
  simp only [Bool.and_eq_true, Bool.not_eq_true', decide_eq_true_eq, Prod.mk.injEq]
  tauto

/-! ## StyleManager of `hwpx_ir/hwpx_writer.py` (lines 67-187)

`__init__` parses the template header with lxml and then loops over the
`<hh:fontface>` children of `<hh:fontfaces>` and the `<hh:charPr>` children
of `<hh:charProperties>`; the parse/`find` steps are external lxml behaviour,
so the embedding takes those two child lists directly.  The catalog nodes
themselves are carried as the `fontfaces`/`char_prs` child lists, to which
`get_font_id`/`get_char_pr_id` append new entries via `etree.SubElement`.
-/

structure StyleManager where
  font_map : List (String × Int)
  next_font_id : Int
  fontfaces : List Elem
  char_pr_map : List ((Bool × Bool × Option Int × Option String × Option String) × Int)
  next_char_pr_id : Int
  char_prs : List Elem
  deriving Repr

/-- Loop body of the `fontface` scan in `StyleManager.__init__`
(`hwpx_writer.py` lines 83-88): register `name → id` in `font_map`, then bump
`next_font_id` past the id when `fid >= next_font_id` (the dict update does
not affect `next_font_id`, so the two record updates are written in one
conditional). -/
def fontInitStep (s : StyleManager) (ff : Elem) : StyleManager :=
  if s.next_font_id ≤ attrInt ff "id" then
    { s with font_map := dictPut s.font_map ((ff.get "font").getD "") (attrInt ff "id"),
             next_font_id := attrInt ff "id" + 1 }
  else
    { s with font_map := dictPut s.font_map ((ff.get "font").getD "") (attrInt ff "id") }

/-- Loop body of the `charPr` scan in `StyleManager.__init__`
(`hwpx_writer.py` lines 95-98). -/
def charPrInitStep (s : StyleManager) (cp : Elem) : StyleManager :=
  if s.next_char_pr_id ≤ attrInt cp "id" then
    { s with next_char_pr_id := attrInt cp "id" + 1 }
  else s

def StyleManager.init (fontface_elems char_pr_elems : List Elem) : StyleManager :=
  let s0 : StyleManager :=
    { font_map := [], next_font_id := 0, fontfaces := fontface_elems,
      char_pr_map := [], next_char_pr_id := 0, char_prs := char_pr_elems }
  let s1 := fontface_elems.foldl fontInitStep s0
  char_pr_elems.foldl charPrInitStep s1

def StyleManager.get_font_id (s : StyleManager) (font_name : String) :
    Int × StyleManager :=
  if font_name = "" then (0, s)
  else
    match dictGet s.font_map font_name with
    | some fid => (fid, s)
    | none =>
      let fid := s.next_font_id
      let ff : Elem :=
        .mk "hh:fontface" [("lang", "ko"), ("font", font_name), ("id", toString fid)]
          none []
      (fid, { s with next_font_id := fid + 1,
                     fontfaces := s.fontfaces ++ [ff],
                     font_map := dictPut s.font_map font_name fid })

/-- Attribute list of a freshly synthesized `<hh:charPr>` entry, together
with the style manager after the possible `get_font_id` call
(`hwpx_writer.py` lines 138-170: `set` calls land in order id, height,
textColor, the eight fontRef attributes when a family is present, then bold
and italic when set). -/
def newCharPrAttrs (s : StyleManager) (run : IrTextRun) (cid : Int) :
    List (String × String) × StyleManager :=
  let attrs1 := [("id", toString cid),
    ("height", match run.font_size with | some n => toString n | none => "1000"),
    ("textColor", if pyTruthyS run.color then run.color.getD "" else "#000000")]
  let r :=
    if pyTruthyS run.font_family then
      let p := s.get_font_id (run.font_family.getD "")
      (attrs1 ++ [("fontRef", toString p.1), ("fontRefHangul", toString p.1),
        ("fontRefLatin", toString p.1), ("fontRefHanja", toString p.1),
        ("fontRefJapanese", toString p.1), ("fontRefOther", toString p.1),
        ("fontRefSymbol", toString p.1), ("fontRefUser", toString p.1)], p.2)
    else (attrs1, s)
  let attrs2 := if run.bold then r.1 ++ [("bold", "1")] else r.1
  let attrs3 := if run.italic then attrs2 ++ [("italic", "1")] else attrs2
  (attrs3, r.2)

def StyleManager.get_char_pr_id (s : StyleManager) (run : IrTextRun) :
    Int × StyleManager :=
  if run.isDefaultSig then (0, s)
  else
    match dictGet s.char_pr_map (charSig run) with
    | some cid => (cid, s)
    | none =>
      let cid := s.next_char_pr_id
      let r := newCharPrAttrs s run cid
      (cid, { r.2 with next_char_pr_id := cid + 1,
                       char_prs := r.2.char_prs ++ [Elem.mk "hh:charPr" r.1 none []],
                       char_pr_map := dictPut r.2.char_pr_map (charSig run) cid })

theorem get_font_id_char_fields (s : StyleManager) (n : String) :
    (s.get_font_id n).2.char_pr_map = s.char_pr_map ∧
    (s.get_font_id n).2.char_prs = s.char_prs ∧
    (s.get_font_id n).2.next_char_pr_id = s.next_char_pr_id := by
  unfold StyleManager.get_font_id
  by_cases hn : n = ""
  · rw [if_pos hn]; exact ⟨rfl, rfl, rfl⟩
  · rw [if_neg hn]
    cases dictGet s.font_map n <;> exact ⟨rfl, rfl, rfl⟩

theorem newCharPrAttrs_char_fields (s : StyleManager) (run : IrTextRun) (cid : Int) :
    (newCharPrAttrs s run cid).2.char_pr_map = s.char_pr_map ∧
    (newCharPrAttrs s run cid).2.char_prs = s.char_prs ∧
    (newCharPrAttrs s run cid).2.next_char_pr_id = s.next_char_pr_id := by
  unfold newCharPrAttrs
  by_cases hf : pyTruthyS run.font_family
  · simp only [hf, if_true]
    exact get_font_id_char_fields s (run.font_family.getD "")
  · simp [hf]

/-- Sequentially assign character-style ids to a list of runs within one
write (each call threads the mutated `StyleManager`). -/
def processRuns (s : StyleManager) : List IrTextRun → List Int × StyleManager
  | [] => ([], s)
  | r :: rs =>
    let p := s.get_char_pr_id r
    let q := processRuns p.2 rs
    (p.1 :: q.1, q.2)

theorem get_char_pr_id_default (s : StyleManager) (run : IrTextRun)
    (h : run.isDefaultSig = true) : s.get_char_pr_id run = (0, s) := by
  unfold StyleManager.get_char_pr_id
  rw [if_pos h]

theorem get_char_pr_id_hit (s : StyleManager) (run : IrTextRun) (cid : Int)
    (h : run.isDefaultSig = false)
    (hm : dictGet s.char_pr_map (charSig run) = some cid) :
    s.get_char_pr_id run = (cid, s) := by
  unfold StyleManager.get_char_pr_id
  rw [if_neg (by simp [h]), hm]

theorem get_char_pr_id_miss (s : StyleManager) (run : IrTextRun)
    (h : run.isDefaultSig = false)
    (hm : dictGet s.char_pr_map (charSig run) = none) :
    (s.get_char_pr_id run).1 = s.next_char_pr_id ∧
    (s.get_char_pr_id run).2.char_pr_map
      = dictPut s.char_pr_map (charSig run) s.next_char_pr_id ∧
    (s.get_char_pr_id run).2.char_prs
      = s.char_prs ++
        [Elem.mk "hh:charPr" (newCharPrAttrs s run s.next_char_pr_id).1 none []] ∧
    (s.get_char_pr_id run).2.next_char_pr_id = s.next_char_pr_id + 1 := by
  unfold StyleManager.get_char_pr_id
  rw [if_neg (by simp [h]), hm]
  have hf := newCharPrAttrs_char_fields s run s.next_char_pr_id
  refine ⟨rfl, ?_, ?_, rfl⟩
  · show dictPut (newCharPrAttrs s run s.next_char_pr_id).2.char_pr_map
      (charSig run) s.next_char_pr_id
        = dictPut s.char_pr_map (charSig run) s.next_char_pr_id
    rw [hf.1]
  · show (newCharPrAttrs s run s.next_char_pr_id).2.char_prs ++
        [Elem.mk "hh:charPr" (newCharPrAttrs s run s.next_char_pr_id).1 none []]
      = s.char_prs ++
        [Elem.mk "hh:charPr" (newCharPrAttrs s run s.next_char_pr_id).1 none []]
    rw [hf.2.1]

theorem get_char_pr_id_lookup (s : StyleManager) (run : IrTextRun)
    (h : run.isDefaultSig = false) :
    dictGet (s.get_char_pr_id run).2.char_pr_map (charSig run)
      = some (s.get_char_pr_id run).1 := by
  cases hfind : dictGet s.char_pr_map (charSig run) with
  | some cid => rw [get_char_pr_id_hit s run cid h hfind]; exact hfind
  | none =>
    have hmiss := get_char_pr_id_miss s run h hfind
    rw [hmiss.2.1, hmiss.1, dictGet_put_self]

theorem get_char_pr_id_stable (s : StyleManager) (run : IrTextRun)
    (sig : Bool × Bool × Option Int × Option String × Option String) (v : Int)
    (h : dictGet s.char_pr_map sig = some v) :
    dictGet (s.get_char_pr_id run).2.char_pr_map sig = some v := by
  by_cases hd : run.isDefaultSig
  · rw [get_char_pr_id_default s run hd]; exact h
  · have hd' : run.isDefaultSig = false := by
      cases hb : run.isDefaultSig
      · rfl
      · exact absurd hb hd
    cases hfind : dictGet s.char_pr_map (charSig run) with
    | some cid => rw [get_char_pr_id_hit s run cid hd' hfind]; exact h
    | none =>
      have hne : sig ≠ charSig run := by
        intro he; rw [he, hfind] at h; exact Option.noConfusion h
      rw [(get_char_pr_id_miss s run hd' hfind).2.1, dictGet_put_ne _ _ _ _ hne]
      exact h

theorem processRuns_stable (rs : List IrTextRun) :
    ∀ (s : StyleManager)
      (sig : Bool × Bool × Option Int × Option String × Option String) (v : Int),
      dictGet s.char_pr_map sig = some v →
      dictGet (processRuns s rs).2.char_pr_map sig = some v := by
  induction rs with
  | nil => intro s sig v h; exact h
  | cons r rs ih =>
    intro s sig v h
    exact ih _ _ _ (get_char_pr_id_stable s r sig v h)

/-! `StyleManager` of `hwpx_ir/writer.py` (lines 66-134): its
`get_char_pr_id` (lines 120-122) unconditionally returns the template default
style id 0 and reads or writes no state at all. -/

structure WriterPyStyleManager where
  font_map : List (String × Int)
  char_prs : List Elem
  deriving Repr

def WriterPyStyleManager.get_char_pr_id (_s : WriterPyStyleManager)
    (_run : IrTextRun) : Int := 0

/-- C3: within one write, (a) two text runs with identical
`(bold, italic, font_size, font_family, color)` signatures receive the same
character-style id from `StyleManager.get_char_pr_id`, no matter what runs
are processed in between (`hwpx_ir/hwpx_writer.py` lines 122-173); (b) an
all-default run receives id 0 with the manager — in particular the style
catalog — fully unchanged; and (c) the `StyleManager.get_char_pr_id` of
`hwpx_ir/writer.py` (lines 120-122) returns the template default id 0 for
every run, touching nothing, so both properties hold for it trivially. -/
theorem style_dedup_idempotent (s : StyleManager) (r1 r2 : IrTextRun)
    (mid : List IrTextRun) (hsig : charSig r1 = charSig r2) :
    (((processRuns (s.get_char_pr_id r1).2 mid).2.get_char_pr_id r2).1
        = (s.get_char_pr_id r1).1 ∧
    (∀ (s' : StyleManager) (r : IrTextRun), r.isDefaultSig = true →
      s'.get_char_pr_id r = (0, s'))) ∧
    (∀ (w : WriterPyStyleManager) (r r' : IrTextRun),
      w.get_char_pr_id r = w.get_char_pr_id r' ∧ w.get_char_pr_id r = 0) := by
  refine ⟨⟨?_, fun s' r h => get_char_pr_id_default s' r h⟩,
    fun w r r' => ⟨rfl, rfl⟩⟩
  by_cases hd : r1.isDefaultSig
  · have hd2 : r2.isDefaultSig = true := by
      rw [isDefaultSig_iff_charSig] at hd ⊢
      rw [← hsig]; exact hd
    rw [get_char_pr_id_default s r1 hd, get_char_pr_id_default _ r2 hd2]
  · have hd1 : r1.isDefaultSig = false := by
      cases h : r1.isDefaultSig
      · rfl
      · exact absurd h hd
    have hd2 : r2.isDefaultSig = false := by
      cases h : r2.isDefaultSig
      · rfl
      · rw [isDefaultSig_iff_charSig] at h
        rw [← hsig] at h
        rw [← isDefaultSig_iff_charSig] at h
        rw [h] at hd1
        exact Bool.noConfusion hd1
    have h1 := get_char_pr_id_lookup s r1 hd1
    have h2 := processRuns_stable mid (s.get_char_pr_id r1).2 (charSig r1)
      (s.get_char_pr_id r1).1 h1
    have h2' : dictGet (processRuns (s.get_char_pr_id r1).2 mid).2.char_pr_map
        (charSig r2) = some (s.get_char_pr_id r1).1 := by
      rw [← hsig]; exact h2
    rw [get_char_pr_id_hit _ r2 _ hd2 h2']

/-- Witness for C3: two bold runs separated by a default run get the same id. -/
theorem style_dedup_idempotent_witness :
    ((processRuns ((StyleManager.init [] []).get_char_pr_id
          { text := "a", bold := true }).2 [{ text := "plain" }]).2.get_char_pr_id
        { text := "b", bold := true }).1
      = ((StyleManager.init [] []).get_char_pr_id { text := "a", bold := true }).1 :=
  ((style_dedup_idempotent (StyleManager.init [] []) { text := "a", bold := true }
    { text := "b", bold := true } [{ text := "plain" }] (by decide)).1).1

/-! ## C4: what the template catalog actually seeds -/

theorem fontInitStep_char_fields (s : StyleManager) (ff : Elem) :
    (fontInitStep s ff).char_pr_map = s.char_pr_map ∧
    (fontInitStep s ff).char_prs = s.char_prs := by
  unfold fontInitStep
  split <;> exact ⟨rfl, rfl⟩

theorem charPrInitStep_fields (s : StyleManager) (cp : Elem) :
    (charPrInitStep s cp).char_pr_map = s.char_pr_map ∧
    (charPrInitStep s cp).char_prs = s.char_prs := by
  unfold charPrInitStep
  split <;> exact ⟨rfl, rfl⟩

theorem foldl_fontInitStep_char_fields (l : List Elem) :
    ∀ s : StyleManager,
      (l.foldl fontInitStep s).char_pr_map = s.char_pr_map ∧
      (l.foldl fontInitStep s).char_prs = s.char_prs := by
  induction l with
  | nil => intro s; exact ⟨rfl, rfl⟩
  | cons ff l ih =>
    intro s
    rw [List.foldl_cons]
    refine ⟨?_, ?_⟩
    · rw [(ih (fontInitStep s ff)).1, (fontInitStep_char_fields s ff).1]
    · rw [(ih (fontInitStep s ff)).2, (fontInitStep_char_fields s ff).2]

theorem foldl_charPrInitStep_fields (l : List Elem) :
    ∀ s : StyleManager,
      (l.foldl charPrInitStep s).char_pr_map = s.char_pr_map ∧
      (l.foldl charPrInitStep s).char_prs = s.char_prs := by
  induction l with
  | nil => intro s; exact ⟨rfl, rfl⟩
  | cons cp l ih =>
    intro s
    rw [List.foldl_cons]
    refine ⟨?_, ?_⟩
    · rw [(ih (charPrInitStep s cp)).1, (charPrInitStep_fields s cp).1]
    · rw [(ih (charPrInitStep s cp)).2, (charPrInitStep_fields s cp).2]

theorem init_char_pr_map (ffs cps : List Elem) :
    (StyleManager.init ffs cps).char_pr_map = [] := by
  unfold StyleManager.init
  rw [(foldl_charPrInitStep_fields cps _).1, (foldl_fontInitStep_char_fields ffs _).1]

theorem init_char_prs (ffs cps : List Elem) :
    (StyleManager.init ffs cps).char_prs = cps := by
  unfold StyleManager.init
  rw [(foldl_charPrInitStep_fields cps _).2, (foldl_fontInitStep_char_fields ffs _).2]

/-- C4 counterexample: the template catalog declares a charPr with id 5 whose
style attributes (height 1000, textColor `#000000`, bold) are exactly those
the writer synthesizes for the bold signature, yet the first
`get_char_pr_id` lookup of that signature returns the freshly allocated id 6,
not 5, and appends a third catalog entry duplicating those attributes: the
signature cache is not seeded from existing entries. -/
theorem style_cache_seed_counterexample :
    ((StyleManager.init []
        [Elem.mk "hh:charPr" [("id", "0")] none [],
         Elem.mk "hh:charPr"
           [("id", "5"), ("height", "1000"), ("textColor", "#000000"), ("bold", "1")]
           none []]).get_char_pr_id { text := "x", bold := true }).1 = 6 ∧
    (6 : Int) ≠ 5 ∧
    (((StyleManager.init []
        [Elem.mk "hh:charPr" [("id", "0")] none [],
         Elem.mk "hh:charPr"
           [("id", "5"), ("height", "1000"), ("textColor", "#000000"), ("bold", "1")]
           none []]).get_char_pr_id { text := "x", bold := true }).2.char_prs).map
        Elem.attrs
      = [[("id", "0")],
         [("id", "5"), ("height", "1000"), ("textColor", "#000000"), ("bold", "1")],
         [("id", "6"), ("height", "1000"), ("textColor", "#000000"), ("bold", "1")]] := by
  refine ⟨by decide, by decide, by decide⟩

/-- C4 amended: `StyleManager.__init__` seeds only the next-unused-id counter
from the ids already present in the template catalog; the signature→id cache
starts empty, so the first lookup of every non-default signature — even one
whose attributes match an existing catalog entry — allocates
`next_char_pr_id` and appends a new catalog entry. -/
theorem style_cache_seed_amended (ffs cps : List Elem) (r : IrTextRun)
    (h : r.isDefaultSig = false) :
    (StyleManager.init ffs cps).char_pr_map = [] ∧
    ((StyleManager.init ffs cps).get_char_pr_id r).1
        = (StyleManager.init ffs cps).next_char_pr_id ∧
    ((StyleManager.init ffs cps).get_char_pr_id r).2.char_prs.length
        = cps.length + 1 := by
  have hmap := init_char_pr_map ffs cps
  have hm : dictGet (StyleManager.init ffs cps).char_pr_map (charSig r) = none := by
    rw [hmap]; rfl
  have hmiss := get_char_pr_id_miss _ r h hm
  refine ⟨hmap, hmiss.1, ?_⟩
  rw [hmiss.2.2.1, init_char_prs, List.length_append, List.length_singleton]

/-- Witness for C4's amended theorem at a concrete template and bold run. -/
theorem style_cache_seed_amended_witness :
    ((StyleManager.init [] [Elem.mk "hh:charPr" [("id", "0")] none []]).get_char_pr_id
        { text := "y", bold := true }).2.char_prs.length = 2 :=
  (style_cache_seed_amended [] [Elem.mk "hh:charPr" [("id", "0")] none []]
    { text := "y", bold := true } (by decide)).2.2

/-! ## Further IR model pieces (`models.py`) needed by the component writers -/

/-- Inline values (`IrInline` union in `models.py`); only the four variants
handled by the component `ParagraphWriter` are distinguished, the remaining
union members (hyperlink, bookmark, field, notes, comments, track changes)
fall to `other`, for which the writer's `if`/`elif` chain has no branch. -/
inductive IrInline where
  | textRun (run : IrTextRun)
  | lineBreak
  | tab
  | inlineEquation (script : String) (base_line : Int)
  | other
  deriving DecidableEq, Repr

structure IrParagraph where
  inlines : List IrInline := []
  raw_xml : Option String := none
  alignment : String := "left"
  line_spacing_type : String := "percent"
  line_spacing_value : Int := 160
  indent_left : Int := 0
  indent_right : Int := 0
  indent_first_line : Int := 0
  space_before : Int := 0
  space_after : Int := 0
  background_color : Option String := none
  style_id : Option String := none
  deriving DecidableEq, Repr

structure IrMargin where
  left : Int := 0
  right : Int := 0
  top : Int := 0
  bottom : Int := 0
  deriving DecidableEq, Repr

structure IrPosition where
  treat_as_char : Bool := true
  vert_rel_to : String := "para"
  horz_rel_to : String := "column"
  vert_align : String := "top"
  horz_align : String := "left"
  vert_offset : Int := 0
  horz_offset : Int := 0
  flow_with_text : Bool := true
  allow_overlap : Bool := false
  deriving DecidableEq, Repr

/-- Block variant (`IrBlock`); of its payload fields only `paragraph` is read
by the embedded table writer (its `_build_cell` processes paragraph blocks
only), so the other payloads are omitted here. -/
structure IrBlock where
  type : String
  paragraph : Option IrParagraph := none
  page_break : Bool := false
  deriving DecidableEq, Repr

structure IrTableCell where
  row : Int
  col : Int
  row_span : Int := 1
  col_span : Int := 1
  blocks : List IrBlock := []
  width_hwpunit : Option Int := none
  height_hwpunit : Option Int := none
  margin : Option IrMargin := none
  vert_align : String := "center"
  border_fill_id : Int := 5
  background_color : Option String := none
  protect : Bool := false
  deriving DecidableEq, Repr

structure IrTable where
  row_cnt : Int
  col_cnt : Int
  cells : List IrTableCell := []
  width_hwpunit : Option Int := none
  height_hwpunit : Option Int := none
  col_widths : Option (List Int) := none
  row_heights : Option (List Int) := none
  treat_as_char : Bool := true
  position : Option IrPosition := none
  text_wrap : String := "top_and_bottom"
  out_margin : Option IrMargin := none
  in_margin : Option IrMargin := none
  cell_spacing : Int := 0
  border_fill_id : Int := 5
  repeat_header : Bool := false
  raw_xml : Option String := none
  deriving DecidableEq, Repr

/-- Python truthiness of an optional list (`None` and `[]` are falsy). -/
def pyTruthyL {α : Type} : Option (List α) → Bool
  | some l => !l.isEmpty
  | none => false

/-- Normalize a Python slice endpoint to `[0, len]`. -/
def pySliceIdx (len : Nat) (i : Int) : Nat :=
  if i < 0 then (max 0 ((len : Int) + i)).toNat else min i.toNat len

/-- Python `l[a:b]`. -/
def pySlice {α : Type} (l : List α) (a b : Int) : List α :=
  let s := pySliceIdx l.length a
  let e := pySliceIdx l.length b
  (l.drop s).take (e - s)

/-- Python `s.split(sep)` for a single separator character. -/
def splitListOn (sep : Char) : List Char → List (List Char)
  | [] => [[]]
  | c :: cs =>
    if c = sep then [] :: splitListOn sep cs
    else
      match splitListOn sep cs with
      | r :: rs => (c :: r) :: rs
      | [] => [[c]]

def pySplitNl (s : String) : List String :=
  (splitListOn '\x0a' s.data).map String.mk

/-! ## ParagraphWriter (`components/paragraph/writer.py`)

`etree.fromstring` is an external lxml function; it enters the embedding as
the explicit `fromstring` parameter, so every theorem about the raw-fragment
path quantifies over it.  The writer instance owns a mutable
`InlineEquationBuilder` counter, threaded as state.
-/

structure ParagraphWriter where
  style_manager : Option WriterPyStyleManager := none
  eq_counter : Nat := 0
  deriving Repr

def linesegAttrs : List (String × String) :=
  [("textpos", "0"), ("vertpos", "0"), ("vertsize", "1000"),
   ("textheight", "1000"), ("baseline", "850"), ("spacing", "600"),
   ("horzpos", "0"), ("horzsize", "0"), ("flags", "393216")]

def linesegarrayElem : Elem :=
  .mk "hp:linesegarray" [] none [.mk "hp:lineseg" linesegAttrs none []]

/-- `InlineEquationBuilder.next_id`: increment first, then return. -/
def InlineEquationBuilder.next_id (counter : Nat) : Nat × Nat :=
  (counter + 1, counter + 1)

/-- `InlineEquationBuilder.build`: a `hp:equation` element for an inline
equation. -/
def InlineEquationBuilder.build (script : String) (base_line : Int) (eq_id : Nat) :
    Elem :=
  .mk "hp:equation"
    [("id", toString eq_id), ("zOrder", "0"), ("numberingType", "EQUATION"),
     ("textWrap", "TOP_AND_BOTTOM"), ("textFlow", "BOTH_SIDES"), ("lock", "0"),
     ("dropcapstyle", "None"), ("version", "Equation Version 60"),
     ("baseLine", toString base_line), ("textColor", "#000000"),
     ("baseUnit", "1000"), ("lineMode", "CHAR"), ("font", "HancomEQN")]
    none
    [.mk "hp:sz"
      [("width", toString (max 1200 (min (script.length * 300) 40000))),
       ("widthRelTo", "ABSOLUTE"), ("height", "1200"),
       ("heightRelTo", "ABSOLUTE"), ("protect", "0")] none [],
     .mk "hp:pos"
      [("treatAsChar", "1"), ("affectLSpacing", "0"), ("flowWithText", "1"),
       ("allowOverlap", "0"), ("holdAnchorAndSO", "0"), ("vertRelTo", "PARA"),
       ("horzRelTo", "PARA"), ("vertAlign", "TOP"), ("horzAlign", "LEFT"),
       ("vertOffset", "0"), ("horzOffset", "0")] none [],
     .mk "hp:outMargin"
      [("left", "56"), ("right", "56"), ("top", "0"), ("bottom", "0")] none [],
     .mk "hp:shapeComment" [] (some "수식입니다.") [],
     .mk "hp:script" [] (some script) []]

/-- Children of one run for the line-broken parts of a text run: every part
after the first is preceded by a `hp:lineBreak`, and empty parts emit no
`hp:t`. -/
def textPartsChildren : List String → Bool → List Elem
  | [], _ => []
  | p :: ps, isFirst =>
    (if isFirst then ([] : List Elem) else [Elem.mk "hp:lineBreak" [] none []]) ++
    (if p ≠ "" then [Elem.mk "hp:t" [] (some p) []] else []) ++
    textPartsChildren ps false

/-- One iteration of the inline loop in `ParagraphWriter.build`
(lines 128-159): emit a `hp:run`, threading the equation-builder counter. -/
def buildInlineRun (pw : ParagraphWriter) (inline : IrInline) :
    Elem × ParagraphWriter :=
  let char_pr_id : Int :=
    match inline, pw.style_manager with
    | .textRun r, some sm => sm.get_char_pr_id r
    | _, _ => 0
  match inline with
  | .textRun r =>
    (.mk "hp:run" [("charPrIDRef", toString char_pr_id)] none
      (textPartsChildren (pySplitNl r.text) true), pw)
  | .lineBreak =>
    (.mk "hp:run" [("charPrIDRef", toString char_pr_id)] none
      [.mk "hp:lineBreak" [] none []], pw)
  | .tab =>
    (.mk "hp:run" [("charPrIDRef", toString char_pr_id)] none
      [.mk "hp:tab" [] none []], pw)
  | .inlineEquation script base_line =>
    let r := InlineEquationBuilder.next_id pw.eq_counter
    (.mk "hp:run" [("charPrIDRef", toString char_pr_id)] none
      [InlineEquationBuilder.build script base_line r.1,
       .mk "hp:t" [] none []],
     { pw with eq_counter := r.2 })
  | .other =>
    (.mk "hp:run" [("charPrIDRef", toString char_pr_id)] none [], pw)

def buildInlineRuns (pw : ParagraphWriter) : List IrInline → List Elem × ParagraphWriter
  | [] => ([], pw)
  | i :: is =>
    let r := buildInlineRun pw i
    let rest := buildInlineRuns r.2 is
    (r.1 :: rest.1, rest.2)

/-- `ParagraphWriter._get_para_pr_id` (lines 176-191): both branches return
the default paragraph property id 0 in the source. -/
def ParagraphWriter.get_para_pr_id (para : IrParagraph) : Int :=
  if para.alignment = "left" ∧ para.line_spacing_type = "percent"
      ∧ para.line_spacing_value = 160 ∧ para.indent_left = 0
      ∧ para.indent_right = 0 ∧ para.indent_first_line = 0
      ∧ para.background_color = none then 0
  else 0

def paragraphAttrs (para : IrParagraph) (paragraph_id : Nat) : List (String × String) :=
  [("id", toString paragraph_id),
   ("paraPrIDRef", toString (ParagraphWriter.get_para_pr_id para)),
   ("styleIDRef", "0"), ("pageBreak", "0"), ("columnBreak", "0"), ("merged", "0")]

/-- `ParagraphWriter.build` (lines 94-174). -/
def ParagraphWriter.build (fromstring : String → Elem) (pw : ParagraphWriter)
    (para : IrParagraph) (paragraph_id : Nat) : Elem × ParagraphWriter :=
  if pyTruthyS para.raw_xml then (fromstring (para.raw_xml.getD ""), pw)
  else if para.inlines = [] then
    (.mk "hp:p" (paragraphAttrs para paragraph_id) none
      [.mk "hp:run" [("charPrIDRef", "0")] none [], linesegarrayElem], pw)
  else
    let r := buildInlineRuns pw para.inlines
    (.mk "hp:p" (paragraphAttrs para paragraph_id) none
      (r.1 ++ [linesegarrayElem]), r.2)

/-- `ParagraphWriter.build_empty` (lines 193-195). -/
def ParagraphWriter.build_empty (fromstring : String → Elem) (pw : ParagraphWriter)
    (paragraph_id : Nat) : Elem × ParagraphWriter :=
  ParagraphWriter.build fromstring pw {} paragraph_id

/-! ## TableWriter (`components/table/writer.py`)

The writer's `self.paragraph_writer` reference is threaded explicitly, as is
the `HwpxIdContext`.
-/

def TEXT_WRAP_MAP : List (String × String) :=
  [("top_and_bottom", "TOP_AND_BOTTOM"), ("both_sides", "SQUARE"),
   ("left_only", "LEFT"), ("right_only", "RIGHT"),
   ("behind_text", "BEHIND_TEXT"), ("in_front_of_text", "IN_FRONT_OF_TEXT")]

def VERT_REL_TO_MAP : List (String × String) :=
  [("paper", "PAPER"), ("page", "PAGE"), ("para", "PARA")]

def HORZ_REL_TO_MAP : List (String × String) :=
  [("paper", "PAPER"), ("page", "PAGE"), ("column", "COLUMN"), ("para", "PARA")]

def VERT_ALIGN_MAP : List (String × String) :=
  [("top", "TOP"), ("center", "CENTER"), ("bottom", "BOTTOM"),
   ("inside", "INSIDE"), ("outside", "OUTSIDE")]

def HORZ_ALIGN_MAP : List (String × String) :=
  [("left", "LEFT"), ("center", "CENTER"), ("right", "RIGHT"),
   ("inside", "INSIDE"), ("outside", "OUTSIDE")]

def CELL_VERT_ALIGN_MAP : List (String × String) :=
  [("top", "TOP"), ("center", "CENTER"), ("bottom", "BOTTOM")]

/-- Python `M.get(key, default)` on the mapping tables above. -/
def mapGetD (m : List (String × String)) (k d : String) : String :=
  (dictGet m k).getD d

/-- `TableWriter._set_position_attrs` (lines 182-210). -/
def positionAttrs (table : IrTable) : List (String × String) :=
  match table.position with
  | some pos =>
    [("treatAsChar", if pos.treat_as_char then "1" else "0"),
     ("affectLSpacing", "0"),
     ("flowWithText", if pos.flow_with_text then "1" else "0"),
     ("allowOverlap", if pos.allow_overlap then "1" else "0"),
     ("holdAnchorAndSO", "0"),
     ("vertRelTo", mapGetD VERT_REL_TO_MAP pos.vert_rel_to "PARA"),
     ("horzRelTo", mapGetD HORZ_REL_TO_MAP pos.horz_rel_to "COLUMN"),
     ("vertAlign", mapGetD VERT_ALIGN_MAP pos.vert_align "TOP"),
     ("horzAlign", mapGetD HORZ_ALIGN_MAP pos.horz_align "LEFT"),
     ("vertOffset", toString pos.vert_offset),
     ("horzOffset", toString pos.horz_offset)]
  | none =>
    [("treatAsChar", if table.treat_as_char then "1" else "0"),
     ("affectLSpacing", "0"), ("flowWithText", "1"), ("allowOverlap", "0"),
     ("holdAnchorAndSO", "0"), ("vertRelTo", "PARA"), ("horzRelTo", "COLUMN"),
     ("vertAlign", "TOP"), ("horzAlign", "LEFT"), ("vertOffset", "0"),
     ("horzOffset", "0")]

/-- Margin attribute list: explicit values when the margin is present, else
the given fixed default on all four sides. -/
def marginAttrs (m : Option IrMargin) (dflt : String) : List (String × String) :=
  match m with
  | some mg =>
    [("left", toString mg.left), ("right", toString mg.right),
     ("top", toString mg.top), ("bottom", toString mg.bottom)]
  | none => [("left", dflt), ("right", dflt), ("top", dflt), ("bottom", dflt)]

/-- The `cell_width` computed by the row loop of `TableWriter.build`
(lines 162-169): when the table has a non-empty `col_widths` list and the
cell's column index is below its length, the sum of the Python slice
`col_widths[col : col + col_span]` overrides the cell's own width. -/
def cellWidthArg (table : IrTable) (cell : IrTableCell) : Option Int :=
  if pyTruthyL table.col_widths ∧ cell.col < ((table.col_widths.getD []).length : Int)
  then some ((pySlice (table.col_widths.getD []) cell.col (cell.col + cell.col_span)).sum)
  else cell.width_hwpunit

/-- The `cell_height` computed by the row loop (lines 171-175). -/
def cellHeightArg (table : IrTable) (cell : IrTableCell) : Option Int :=
  if pyTruthyL table.row_heights ∧ cell.row < ((table.row_heights.getD []).length : Int)
  then some ((pySlice (table.row_heights.getD []) cell.row (cell.row + cell.row_span)).sum)
  else cell.height_hwpunit

/-- Python `a or b or d` over optional ints with 0 falsy, as in
`computed_width or cell.width_hwpunit or 10000` (`_build_cell` line 268). -/
def pyOrIntD (a b : Option Int) (d : Int) : Int :=
  if pyTruthyI a then a.getD 0 else if pyTruthyI b then b.getD 0 else d

/-- The block loop of `_build_cell` (lines 244-249): only paragraph blocks
are emitted into the cell's `subList`. -/
def buildCellBlocks (fromstring : String → Elem) (pw : ParagraphWriter)
    (ctx : HwpxIdContext) : List IrBlock → List Elem × ParagraphWriter × HwpxIdContext
  | [] => ([], pw, ctx)
  | b :: bs =>
    if b.type = "paragraph" ∧ b.paragraph.isSome then
      let i := ctx.next_para_id
      let p := ParagraphWriter.build fromstring pw (b.paragraph.getD {}) i.1
      let rest := buildCellBlocks fromstring p.2 i.2 bs
      (p.1 :: rest.1, rest.2)
    else buildCellBlocks fromstring pw ctx bs

/-- Children of a cell's `subList`, adding one empty paragraph when no block
produced content (`_build_cell` lines 251-254). -/
def cellSubListChildren (fromstring : String → Elem) (pw : ParagraphWriter)
    (ctx : HwpxIdContext) (blocks : List IrBlock) :
    List Elem × ParagraphWriter × HwpxIdContext :=
  let r := buildCellBlocks fromstring pw ctx blocks
  if r.1.isEmpty then
    let i := r.2.2.next_para_id
    let p := ParagraphWriter.build_empty fromstring r.2.1 i.1
    ([p.1], p.2, i.2)
  else r

/-- `TableWriter._build_cell` (lines 212-287). -/
def TableWriter.build_cell (fromstring : String → Elem) (pw : ParagraphWriter)
    (ctx : HwpxIdContext) (cell : IrTableCell)
    (computed_width computed_height : Option Int) (default_margin : Option IrMargin) :
    Elem × ParagraphWriter × HwpxIdContext :=
  let sub := cellSubListChildren fromstring pw ctx cell.blocks
  (.mk "hp:tc"
    [("name", ""), ("header", "0"),
     ("hasMargin", if cell.margin.isSome then "1" else "0"),
     ("protect", if cell.protect then "1" else "0"),
     ("editable", "0"), ("dirty", "0"),
     ("borderFillIDRef", toString cell.border_fill_id)]
    none
    [.mk "hp:subList"
      [("id", ""), ("textDirection", "HORIZONTAL"), ("lineWrap", "BREAK"),
       ("vertAlign", mapGetD CELL_VERT_ALIGN_MAP cell.vert_align "CENTER"),
       ("linkListIDRef", "0"), ("linkListNextIDRef", "0"), ("textWidth", "0"),
       ("textHeight", "0"), ("hasTextRef", "0"), ("hasNumRef", "0")]
      none sub.1,
     .mk "hp:cellAddr" [("colAddr", toString cell.col), ("rowAddr", toString cell.row)]
      none [],
     .mk "hp:cellSpan"
      [("colSpan", toString cell.col_span), ("rowSpan", toString cell.row_span)]
      none [],
     .mk "hp:cellSz"
      [("width", toString (pyOrIntD computed_width cell.width_hwpunit 10000)),
       ("height", toString (pyOrIntD computed_height cell.height_hwpunit 1000))]
      none [],
     .mk "hp:cellMargin"
      (marginAttrs (match cell.margin with
        | some m => some m
        | none => default_margin) "141")
      none []],
   sub.2)

/-- Ascending distinct row indices (`sorted(row_map.keys())`). -/
def rowKeys (cells : List IrTableCell) : List Int :=
  ((cells.map (fun c => c.row)).dedup).insertionSort (· ≤ ·)

/-- Cells of one row in the grouped order, sorted by column
(`sorted(row_map[row], key=lambda c: c.col)`, a stable sort). -/
def cellsOfRow (cells : List IrTableCell) (r : Int) : List IrTableCell :=
  (cells.filter (fun c => c.row = r)).insertionSort (fun a b => a.col ≤ b.col)

def buildRowCells (fromstring : String → Elem) (table : IrTable)
    (pw : ParagraphWriter) (ctx : HwpxIdContext) :
    List IrTableCell → List Elem × ParagraphWriter × HwpxIdContext
  | [] => ([], pw, ctx)
  | c :: cs =>
    let tc := TableWriter.build_cell fromstring pw ctx c
      (cellWidthArg table c) (cellHeightArg table c) table.in_margin
    let rest := buildRowCells fromstring table tc.2.1 tc.2.2 cs
    (tc.1 :: rest.1, rest.2)

def buildRows (fromstring : String → Elem) (table : IrTable)
    (pw : ParagraphWriter) (ctx : HwpxIdContext) :
    List Int → List Elem × ParagraphWriter × HwpxIdContext
  | [] => ([], pw, ctx)
  | r :: rs =>
    let rowr := buildRowCells fromstring table pw ctx (cellsOfRow table.cells r)
    let rest := buildRows fromstring table rowr.2.1 rowr.2.2 rs
    (Elem.mk "hp:tr" [] none rowr.1 :: rest.1, rest.2)

/-- Attributes of the optional `hp:sz` child of the table (lines 112-120). -/
def tableSzAttrs (total_width total_height : Option Int) : List (String × String) :=
  (if total_width.isSome then
    [("width", toString (total_width.getD 0)), ("widthRelTo", "ABSOLUTE")]
   else []) ++
  (if total_height.isSome then
    [("height", toString (total_height.getD 0)), ("heightRelTo", "ABSOLUTE")]
   else []) ++
  [("protect", "0")]

/-- `TableWriter.build` (lines 74-180). -/
def TableWriter.build (fromstring : String → Elem) (pw : ParagraphWriter)
    (table : IrTable) (ctx : HwpxIdContext) :
    Elem × ParagraphWriter × HwpxIdContext :=
  if pyTruthyS table.raw_xml then (fromstring (table.raw_xml.getD ""), pw, ctx)
  else
    let tid := ctx.next_tbl_id
    let total_width :=
      if pyTruthyL table.col_widths ∧ ¬pyTruthyI table.width_hwpunit
      then some ((table.col_widths.getD []).sum) else table.width_hwpunit
    let total_height :=
      if pyTruthyL table.row_heights ∧ ¬pyTruthyI table.height_hwpunit
      then some ((table.row_heights.getD []).sum) else table.height_hwpunit
    let szChildren : List Elem :=
      if total_width.isSome ∨ total_height.isSome
      then [.mk "hp:sz" (tableSzAttrs total_width total_height) none []] else []
    let rowsr := buildRows fromstring table pw tid.2 (rowKeys table.cells)
    (.mk "hp:tbl"
      [("id", toString tid.1), ("zOrder", "0"), ("numberingType", "TABLE"),
       ("textWrap", mapGetD TEXT_WRAP_MAP table.text_wrap "TOP_AND_BOTTOM"),
       ("textFlow", "BOTH_SIDES"), ("lock", "0"), ("dropcapstyle", "None"),
       ("pageBreak", "CELL"),
       ("repeatHeader", if table.repeat_header then "1" else "0"),
       ("rowCnt", toString table.row_cnt), ("colCnt", toString table.col_cnt),
       ("cellSpacing", toString table.cell_spacing),
       ("borderFillIDRef", toString table.border_fill_id), ("noAdjust", "0")]
      none
      (szChildren ++
        [.mk "hp:pos" (positionAttrs table) none [],
         .mk "hp:outMargin" (marginAttrs table.out_margin "283") none [],
         .mk "hp:inMargin" (marginAttrs table.in_margin "141") none []] ++
        rowsr.1),
     rowsr.2)

/-- C1: when the preserved raw fragment is non-empty, `ParagraphWriter.build`
returns exactly the parse of that fragment, for every parser, every
structured field of the paragraph and every paragraph id, with the writer
state untouched; and `TableWriter.build` likewise returns exactly the parse
of the table's raw fragment with both the writer state and the ID context
untouched (no id is drawn). -/
theorem raw_fragment_passthrough (fromstring : String → Elem)
    (pw : ParagraphWriter) (ctx : HwpxIdContext) (para : IrParagraph)
    (table : IrTable) (pid : Nat)
    (hp : pyTruthyS para.raw_xml = true) (ht : pyTruthyS table.raw_xml = true) :
    ParagraphWriter.build fromstring pw para pid
        = (fromstring (para.raw_xml.getD ""), pw) ∧
    TableWriter.build fromstring pw table ctx
        = (fromstring (table.raw_xml.getD ""), pw, ctx) := by
  constructor
  · unfold ParagraphWriter.build
    rw [if_pos hp]
  · unfold TableWriter.build
    rw [if_pos ht]

/-- Witness for C1 at a concrete parser, paragraph and table. -/
theorem raw_fragment_passthrough_witness :
    ParagraphWriter.build (fun s => Elem.mk s [] none []) {}
        { raw_xml := some "<hp:p/>", inlines := [.lineBreak] } 7
      = (Elem.mk "<hp:p/>" [] none [], {}) ∧
    TableWriter.build (fun s => Elem.mk s [] none []) {}
        { row_cnt := 2, col_cnt := 2, raw_xml := some "<hp:tbl/>" }
        HwpxIdContext.init
      = (Elem.mk "<hp:tbl/>" [] none [], {}, HwpxIdContext.init) :=
  raw_fragment_passthrough (fun s => Elem.mk s [] none []) {} HwpxIdContext.init
    { raw_xml := some "<hp:p/>", inlines := [.lineBreak] }
    { row_cnt := 2, col_cnt := 2, raw_xml := some "<hp:tbl/>" } 7
    (by decide) (by decide)

/-! ## C5: cell geometry derivation -/

def findChildTag (e : Elem) (t : String) : Option Elem :=
  e.children.find? (fun c => c.tag = t)

def cellSzWidthOf (tc : Elem) : Option String :=
  (findChildTag tc "hp:cellSz").bind (fun e => e.get "width")

def cellSzHeightOf (tc : Elem) : Option String :=
  (findChildTag tc "hp:cellSz").bind (fun e => e.get "height")

def firstCellOfBuild (tbl : Elem) : Option Elem :=
  (findChildTag tbl "hp:tr").bind (fun tr => tr.children.head?)

/-- Spec-following effective cell width, written from the amended claim's
words: a non-empty table `col_widths` list covering the cell's column wins
(summed over the spanned Python slice) unless the spanned sum is zero; the
cell's own non-zero explicit width is used otherwise; the fallback is the
fixed constant 10000. -/
def specEffectiveCellWidth (table : IrTable) (cell : IrTableCell) : Int :=
  if pyTruthyL table.col_widths
      ∧ cell.col < ((table.col_widths.getD []).length : Int)
      ∧ (pySlice (table.col_widths.getD []) cell.col (cell.col + cell.col_span)).sum ≠ 0
  then (pySlice (table.col_widths.getD []) cell.col (cell.col + cell.col_span)).sum
  else if pyTruthyI cell.width_hwpunit then cell.width_hwpunit.getD 0
  else 10000

/-- Spec-following effective cell height, analogous to
`specEffectiveCellWidth` with the fixed fallback 1000. -/
def specEffectiveCellHeight (table : IrTable) (cell : IrTableCell) : Int :=
  if pyTruthyL table.row_heights
      ∧ cell.row < ((table.row_heights.getD []).length : Int)
      ∧ (pySlice (table.row_heights.getD []) cell.row (cell.row + cell.row_span)).sum ≠ 0
  then (pySlice (table.row_heights.getD []) cell.row (cell.row + cell.row_span)).sum
  else if pyTruthyI cell.height_hwpunit then cell.height_hwpunit.getD 0
  else 1000

theorem pyOrIntD_some_ne (a : Int) (b : Option Int) (d : Int) (h : a ≠ 0) :
    pyOrIntD (some a) b d = a := by
  unfold pyOrIntD
  rw [if_pos (by simp [pyTruthyI, h])]
  rfl

theorem pyOrIntD_some_zero (b : Option Int) (d : Int) :
    pyOrIntD (some 0) b d = (if pyTruthyI b then b.getD 0 else d) := by
  unfold pyOrIntD
  rw [if_neg (by simp [pyTruthyI])]

theorem pyOrIntD_dup (b : Option Int) (d : Int) :
    pyOrIntD b b d = (if pyTruthyI b then b.getD 0 else d) := by
  unfold pyOrIntD
  by_cases h : pyTruthyI b
  · rw [if_pos h, if_pos h]
  · rw [if_neg h]

theorem widthValue_eq_spec (table : IrTable) (cell : IrTableCell) :
    pyOrIntD (cellWidthArg table cell) cell.width_hwpunit 10000
      = specEffectiveCellWidth table cell := by
  by_cases h1 : pyTruthyL table.col_widths = true
      ∧ cell.col < ((table.col_widths.getD []).length : Int)
  · have ha : cellWidthArg table cell
        = some (pySlice (table.col_widths.getD []) cell.col
            (cell.col + cell.col_span)).sum := by
      unfold cellWidthArg; rw [if_pos h1]
    by_cases h2 : (pySlice (table.col_widths.getD []) cell.col
        (cell.col + cell.col_span)).sum = 0
    · have hs : specEffectiveCellWidth table cell
          = (if pyTruthyI cell.width_hwpunit then cell.width_hwpunit.getD 0
             else 10000) := by
        unfold specEffectiveCellWidth
        rw [if_neg (fun hc => hc.2.2 h2)]
      rw [ha, h2, pyOrIntD_some_zero, hs]
    · have hs : specEffectiveCellWidth table cell
          = (pySlice (table.col_widths.getD []) cell.col
              (cell.col + cell.col_span)).sum := by
        unfold specEffectiveCellWidth
        rw [if_pos ⟨h1.1, h1.2, h2⟩]
      rw [ha, pyOrIntD_some_ne _ _ _ h2, hs]
  · have ha : cellWidthArg table cell = cell.width_hwpunit := by
      unfold cellWidthArg; rw [if_neg h1]
    have hs : specEffectiveCellWidth table cell
        = (if pyTruthyI cell.width_hwpunit then cell.width_hwpunit.getD 0
           else 10000) := by
      unfold specEffectiveCellWidth
      rw [if_neg (fun hc => h1 ⟨hc.1, hc.2.1⟩)]
    rw [ha, pyOrIntD_dup, hs]

theorem heightValue_eq_spec (table : IrTable) (cell : IrTableCell) :
    pyOrIntD (cellHeightArg table cell) cell.height_hwpunit 1000
      = specEffectiveCellHeight table cell := by
  by_cases h1 : pyTruthyL table.row_heights = true
      ∧ cell.row < ((table.row_heights.getD []).length : Int)
  · have ha : cellHeightArg table cell
        = some (pySlice (table.row_heights.getD []) cell.row
            (cell.row + cell.row_span)).sum := by
      unfold cellHeightArg; rw [if_pos h1]
    by_cases h2 : (pySlice (table.row_heights.getD []) cell.row
        (cell.row + cell.row_span)).sum = 0
    · have hs : specEffectiveCellHeight table cell
          = (if pyTruthyI cell.height_hwpunit then cell.height_hwpunit.getD 0
             else 1000) := by
        unfold specEffectiveCellHeight
        rw [if_neg (fun hc => hc.2.2 h2)]
      rw [ha, h2, pyOrIntD_some_zero, hs]
    · have hs : specEffectiveCellHeight table cell
          = (pySlice (table.row_heights.getD []) cell.row
              (cell.row + cell.row_span)).sum := by
        unfold specEffectiveCellHeight
        rw [if_pos ⟨h1.1, h1.2, h2⟩]
      rw [ha, pyOrIntD_some_ne _ _ _ h2, hs]
  · have ha : cellHeightArg table cell = cell.height_hwpunit := by
      unfold cellHeightArg; rw [if_neg h1]
    have hs : specEffectiveCellHeight table cell
        = (if pyTruthyI cell.height_hwpunit then cell.height_hwpunit.getD 0
           else 1000) := by
      unfold specEffectiveCellHeight
      rw [if_neg (fun hc => h1 ⟨hc.1, hc.2.1⟩)]
    rw [ha, pyOrIntD_dup, hs]

/-- C5 counterexample: with column widths `[1000, 2000, 3000]` the cell at
col 0 with col_span 1 and its *own explicit width 9999* is emitted with
width "1000": the column-width sum overrides the explicit cell width, the
reverse of the claimed priority. -/
theorem cell_geometry_counterexample :
    ((firstCellOfBuild
        (TableWriter.build (fun s => Elem.mk s [] none []) {}
          { row_cnt := 1, col_cnt := 3,
            cells := [{ row := 0, col := 0, width_hwpunit := some 9999 }],
            col_widths := some [1000, 2000, 3000] }
          HwpxIdContext.init).1).bind cellSzWidthOf) = some "1000" ∧
    some "1000" ≠ some "9999" := by
  refine ⟨by decide, by decide⟩

/-- C5 amended: for every table and cell, the emitted `hp:cellSz` width is
the column-width-span sum when the table carries a non-empty column-width
list covering the cell's column and the spanned sum is non-zero — overriding
any explicit cell width; otherwise the cell's own non-zero explicit width;
otherwise the fixed fallback 10000 (heights analogously with fallback 1000);
and on the spec's example (widths `[1000, 2000, 3000]`, cell at col 1 with
col_span 2, no explicit width) the emitted width is 2000+3000 = 5000. -/
theorem cell_geometry_amended (fromstring : String → Elem) (pw : ParagraphWriter)
    (ctx : HwpxIdContext) (table : IrTable) (cell : IrTableCell)
    (dm : Option IrMargin) :
    cellSzWidthOf (TableWriter.build_cell fromstring pw ctx cell
        (cellWidthArg table cell) (cellHeightArg table cell) dm).1
      = some (toString (specEffectiveCellWidth table cell)) ∧
    cellSzHeightOf (TableWriter.build_cell fromstring pw ctx cell
        (cellWidthArg table cell) (cellHeightArg table cell) dm).1
      = some (toString (specEffectiveCellHeight table cell)) ∧
    ((firstCellOfBuild
        (TableWriter.build (fun s => Elem.mk s [] none []) {}
          { row_cnt := 1, col_cnt := 3,
            cells := [{ row := 0, col := 1, col_span := 2 }],
            col_widths := some [1000, 2000, 3000] }
          HwpxIdContext.init).1).bind cellSzWidthOf) = some "5000" := by
  refine ⟨?_, ?_, by decide⟩
  · show some (toString (pyOrIntD (cellWidthArg table cell) cell.width_hwpunit 10000))
      = some (toString (specEffectiveCellWidth table cell))
    rw [widthValue_eq_spec]
  · show some (toString (pyOrIntD (cellHeightArg table cell) cell.height_hwpunit 1000))
      = some (toString (specEffectiveCellHeight table cell))
    rw [heightValue_eq_spec]

/-! ## HwpxSearcher (`components/query/searcher.py`)

`__init__` parses `section0.xml` with lxml (external; the embedding takes the
parsed root), then `_parse` collects every `hp:p` descendant in document
order together with the indices of paragraphs carrying an explicit
page/column-break marker.
-/

mutual

def collectP : Elem → List Elem
  | .mk _ _ _ cs => collectPList cs

def collectPList : List Elem → List Elem
  | [] => []
  | c :: cs =>
    (if c.tag = "hp:p" then [c] else []) ++ collectP c ++ collectPList cs

end

/-- The break-collection loop of `HwpxSearcher._parse` (lines 71-75): a
paragraph with `pageBreak="1"` contributes its index; one with
`columnBreak="1"` contributes its index as well. -/
def pageBreaksGo : List Elem → Nat → List Nat
  | [], _ => []
  | p :: rest, i =>
    (if p.get "pageBreak" = some "1" then [i] else []) ++
    (if p.get "columnBreak" = some "1" then [i] else []) ++
    pageBreaksGo rest (i + 1)

structure HwpxSearcher where
  paragraphs : List Elem
  page_breaks : List Nat
  deriving Repr

def HwpxSearcher.init (root : Elem) : HwpxSearcher :=
  { paragraphs := collectP root,
    page_breaks := pageBreaksGo (collectP root) 0 }

/-- The loop of `HwpxSearcher._estimate_page` (lines 87-95): start at page 1,
add one for each recorded break index strictly below the paragraph index,
stopping at the first break index not below it. -/
def estimateGo : List Nat → Nat → Nat → Nat
  | [], page, _ => page
  | b :: rest, page, idx => if b < idx then estimateGo rest (page + 1) idx else page

def HwpxSearcher.estimate_page (s : HwpxSearcher) (para_index : Nat) : Nat :=
  estimateGo s.page_breaks 1 para_index

/-- C6 counterexample: a body of eight paragraphs with a page break at
index 3 and a column break at index 7 gets the page estimates
`1,1,1,1,2,2,2,2`, not the claimed `1,1,1,2,2,2,2,3`. -/
theorem page_break_estimate_counterexample :
    ((List.range 8).map (HwpxSearcher.estimate_page (HwpxSearcher.init
        (Elem.mk "hs:sec" [] none
          [Elem.mk "hp:p" [] none [], Elem.mk "hp:p" [] none [],
           Elem.mk "hp:p" [] none [], Elem.mk "hp:p" [("pageBreak", "1")] none [],
           Elem.mk "hp:p" [] none [], Elem.mk "hp:p" [] none [],
           Elem.mk "hp:p" [] none [],
           Elem.mk "hp:p" [("columnBreak", "1")] none []]))))
      = [1, 1, 1, 1, 2, 2, 2, 2] ∧
    [1, 1, 1, 1, 2, 2, 2, 2] ≠ [1, 1, 1, 2, 2, 2, 2, 3] :=
  ⟨by decide, by decide⟩

/-- C6 amended: for every body whose collected break indices are exactly 3
and 7, the per-paragraph page estimates for paragraphs 0..7 are
`1,1,1,1,2,2,2,2`: breaks are counted strictly before the paragraph, so the
paragraph bearing a break still belongs to its current page and the next
page starts at the following paragraph. -/
theorem page_break_estimate_amended (root : Elem)
    (h : (HwpxSearcher.init root).page_breaks = [3, 7]) :
    (List.range 8).map (HwpxSearcher.estimate_page (HwpxSearcher.init root))
      = [1, 1, 1, 1, 2, 2, 2, 2] := by
  have hf : HwpxSearcher.estimate_page (HwpxSearcher.init root)
      = fun i => estimateGo [3, 7] 1 i := by
    funext i
    unfold HwpxSearcher.estimate_page
    rw [h]
  rw [hf]
  decide

/-- Witness for C6's amended theorem at a concrete eight-paragraph body. -/
theorem page_break_estimate_amended_witness :
    (List.range 8).map (HwpxSearcher.estimate_page (HwpxSearcher.init
        (Elem.mk "hs:sec" [] none
          [Elem.mk "hp:p" [] none [], Elem.mk "hp:p" [] none [],
           Elem.mk "hp:p" [] none [], Elem.mk "hp:p" [("pageBreak", "1")] none [],
           Elem.mk "hp:p" [] none [], Elem.mk "hp:p" [] none [],
           Elem.mk "hp:p" [] none [],
           Elem.mk "hp:p" [("columnBreak", "1")] none []])))
      = [1, 1, 1, 1, 2, 2, 2, 2] :=
  page_break_estimate_amended
    (Elem.mk "hs:sec" [] none
      [Elem.mk "hp:p" [] none [], Elem.mk "hp:p" [] none [],
       Elem.mk "hp:p" [] none [], Elem.mk "hp:p" [("pageBreak", "1")] none [],
       Elem.mk "hp:p" [] none [], Elem.mk "hp:p" [] none [],
       Elem.mk "hp:p" [] none [],
       Elem.mk "hp:p" [("columnBreak", "1")] none []])
    (by decide)

/-! ## Python string primitives used by the editor

`str.replace(old, new, count)` (a negative count means unlimited, count 0
means none, occurrences are non-overlapping from the left), `old in s`, and
`s.count(sub)` (with Python's `s.count("") == len(s)+1`).  The replace/count
scans carry an explicit skip counter over the matched occurrence so that the
recursion is structural (hence kernel-computable).
-/

def listStartsWith : List Char → List Char → Bool
  | [], _ => true
  | _ :: _, [] => false
  | a :: as, b :: bs => a = b && listStartsWith as bs

/-- Python `sub in s`. -/
def pyInL (sub : List Char) : List Char → Bool
  | [] => sub.isEmpty
  | c :: rest => listStartsWith sub (c :: rest) || pyInL sub rest

/-- Python `s.replace("", nw, limit)`: `nw` interleaved before every char and
once at the end, up to `limit` insertions. -/
def replEmpty (nw : List Char) : List Char → Int → List Char
  | [], limit => if limit = 0 then [] else nw
  | c :: rest, limit =>
    if limit = 0 then c :: rest else nw ++ c :: replEmpty nw rest (limit - 1)

/-- Python `s.replace(old, nw, limit)` for non-empty `old`: scan left to
right; on a match emit `nw` once, then skip the remaining `old.length - 1`
matched characters via the skip counter. -/
def replGo (nw old : List Char) : List Char → Nat → Int → List Char
  | [], _, _ => []
  | _ :: rest, skip + 1, limit => replGo nw old rest skip limit
  | c :: rest, 0, limit =>
    if limit ≠ 0 ∧ listStartsWith old (c :: rest) then
      nw ++ replGo nw old rest (old.length - 1) (limit - 1)
    else c :: replGo nw old rest 0 limit

def pyReplaceL (s old nw : List Char) (limit : Int) : List Char :=
  if old.isEmpty then replEmpty nw s limit else replGo nw old s 0 limit

/-- Python `s.count(sub)` for non-empty `sub` (non-overlapping, from the
left). -/
def countGo (sub : List Char) : List Char → Nat → Nat
  | [], _ => 0
  | _ :: rest, skip + 1 => countGo sub rest skip
  | c :: rest, 0 =>
    if listStartsWith sub (c :: rest) then 1 + countGo sub rest (sub.length - 1)
    else countGo sub rest 0

def pyCountL (s sub : List Char) : Nat :=
  if sub.isEmpty then s.length + 1 else countGo sub s 0

def pyInStr (sub s : String) : Bool := pyInL sub.data s.data

def pyReplaceStr (s old nw : String) (limit : Int) : String :=
  String.mk (pyReplaceL s.data old.data nw.data limit)

def pyCountStr (s sub : String) : Nat := pyCountL s.data sub.data

/-! ## HwpxEditor (`components/query/editor.py`)

One editor instance is a parsed body root plus the `_modified` flag; lxml
parse (`__init__`) takes the already-parsed root.  Top-level paragraphs are
the root's direct `hp:p` children (`_get_paragraphs`, xpath `./hp:p`);
positional surgery on `root`'s child list renders lxml's
insert/remove-by-identity, since `list(parent).index(target)` under lxml's
identity equality returns the target's actual child position.
-/

structure HwpxEditor where
  root : Elem
  modified : Bool
  deriving DecidableEq, Repr

def HwpxEditor.init (root : Elem) : HwpxEditor := ⟨root, false⟩

def paraPositionsGo : List Elem → Nat → List Nat
  | [], _ => []
  | c :: cs, i => (if c.tag = "hp:p" then [i] else []) ++ paraPositionsGo cs (i + 1)

/-- Child positions of the top-level paragraphs. -/
def paraPositions (children : List Elem) : List Nat := paraPositionsGo children 0

def HwpxEditor.numParas (st : HwpxEditor) : Nat :=
  (paraPositions st.root.children).length

def insertAt {α : Type} (l : List α) (i : Nat) (a : α) : List α :=
  l.take i ++ a :: l.drop i

def removeAt {α : Type} (l : List α) (i : Nat) : List α :=
  l.take i ++ l.drop (i + 1)

def modifyAt {α : Type} : List α → Nat → (α → α) → List α
  | [], _, _ => []
  | x :: xs, 0, f => f x :: xs
  | x :: xs, n + 1, f => x :: modifyAt xs n f

def Elem.withChildren (e : Elem) (cs : List Elem) : Elem :=
  .mk e.tag e.attrs e.text cs

theorem Elem.withChildren_self (e : Elem) : e.withChildren e.children = e := by
  cases e; rfl

/-- `HwpxEditor._create_paragraph` (lines 129-169); the run/lineBreak/text
shape and the lineseg constants coincide with the paragraph writer's. -/
def createParagraph (text : String) (para_pr_id char_pr_id : Int) : Elem :=
  .mk "hp:p"
    [("id", "0"), ("paraPrIDRef", toString para_pr_id), ("styleIDRef", "0"),
     ("pageBreak", "0"), ("columnBreak", "0"), ("merged", "0")]
    none
    [.mk "hp:run" [("charPrIDRef", toString char_pr_id)] none
      (textPartsChildren (pySplitNl text) true),
     linesegarrayElem]

def HwpxEditor.insert_paragraph_after (st : HwpxEditor) (after_index : Int)
    (text : String) (para_pr_id char_pr_id : Int) : Bool × HwpxEditor :=
  let ps := paraPositions st.root.children
  if after_index < 0 ∨ (ps.length : Int) ≤ after_index then (false, st)
  else
    let pos := (ps[after_index.toNat]?).getD 0
    let cs := insertAt st.root.children (pos + 1)
      (createParagraph text para_pr_id char_pr_id)
    (true, { root := st.root.withChildren cs, modified := true })

def HwpxEditor.insert_paragraph_before (st : HwpxEditor) (before_index : Int)
    (text : String) (para_pr_id char_pr_id : Int) : Bool × HwpxEditor :=
  let ps := paraPositions st.root.children
  if before_index < 0 ∨ (ps.length : Int) ≤ before_index then (false, st)
  else
    let pos := (ps[before_index.toNat]?).getD 0
    let cs := insertAt st.root.children pos
      (createParagraph text para_pr_id char_pr_id)
    (true, { root := st.root.withChildren cs, modified := true })

def HwpxEditor.append_paragraph (st : HwpxEditor) (text : String)
    (para_pr_id char_pr_id : Int) : Bool × HwpxEditor :=
  let cs := st.root.children ++ [createParagraph text para_pr_id char_pr_id]
  (true, { root := st.root.withChildren cs, modified := true })

def HwpxEditor.delete_paragraph (st : HwpxEditor) (index : Int) :
    Bool × HwpxEditor :=
  let ps := paraPositions st.root.children
  if index < 0 ∨ (ps.length : Int) ≤ index then (false, st)
  else
    let cs := removeAt st.root.children ((ps[index.toNat]?).getD 0)
    (true, { root := st.root.withChildren cs, modified := true })

/-- Children after the descending deletion loop of `delete_paragraphs_range`
(lines 193-198): top-level paragraphs whose paragraph rank lies in
`[lo, hi)` are removed; `k` is the rank of the next paragraph. -/
def removeParasIn (lo hi : Nat) : List Elem → Nat → List Elem
  | [], _ => []
  | c :: cs, k =>
    if c.tag = "hp:p" then
      if lo ≤ k ∧ k < hi then removeParasIn lo hi cs (k + 1)
      else c :: removeParasIn lo hi cs (k + 1)
    else c :: removeParasIn lo hi cs k

def HwpxEditor.delete_paragraphs_range (st : HwpxEditor) (start stop : Int) :
    Nat × HwpxEditor :=
  let ps := paraPositions st.root.children
  let hi : Int := min stop (ps.length : Int)
  let lo : Int := max 0 start
  let deleted : Nat := (hi - lo).toNat
  let cs := removeParasIn lo.toNat hi.toNat st.root.children 0
  (deleted,
   { root := st.root.withChildren cs,
     modified := if deleted > 0 then true else st.modified })

/-- Body applied to one `hp:t` text node by `replace_text` (lines 218-229):
threads the running replacement counter and reports the loop break. -/
def replaceNode (old nw : String) (cnt : Int) (tx : Option String) (r : Nat) :
    Option String × Nat × Bool :=
  match tx with
  | none => (none, r, false)
  | some s =>
    if s ≠ "" ∧ pyInStr old s then
      let p :=
        if cnt = -1 then
          let ns := pyReplaceStr s old nw (-1)
          (ns, r + pyCountStr ns nw)
        else
          let remaining : Int := cnt - (r : Int)
          if 0 < remaining then
            let ns := pyReplaceStr s old nw remaining
            (ns, r + min remaining.toNat (pyCountStr ns nw))
          else (s, r)
      (some p.1, p.2, cnt ≠ -1 ∧ (cnt : Int) ≤ (p.2 : Int))
    else (some s, r, false)

mutual

def replaceVisit (old nw : String) (cnt : Int) :
    Elem → Nat → Bool → Elem × Nat × Bool
  | .mk t a tx cs, r, stop =>
    let n : Option String × Nat × Bool :=
      if t = "hp:t" ∧ stop = false then replaceNode old nw cnt tx r
      else (tx, r, stop)
    let rc := replaceVisitList old nw cnt cs n.2.1 n.2.2
    (.mk t a n.1 rc.1, rc.2)

def replaceVisitList (old nw : String) (cnt : Int) :
    List Elem → Nat → Bool → List Elem × Nat × Bool
  | [], r, stop => ([], r, stop)
  | c :: cs, r, stop =>
    let rc := replaceVisit old nw cnt c r stop
    let rest := replaceVisitList old nw cnt cs rc.2.1 rc.2.2
    (rc.1 :: rest.1, rest.2)

end

def HwpxEditor.replace_text (st : HwpxEditor) (old nw : String) (count : Int) :
    Nat × HwpxEditor :=
  let r := replaceVisitList old nw count st.root.children 0 false
  (r.2.1,
   { root := st.root.withChildren r.1,
     modified := if r.2.1 > 0 then true else st.modified })

def firstIdxOfTag : List Elem → String → Option Nat
  | [], _ => none
  | c :: cs, t =>
    if c.tag = t then some 0
    else (firstIdxOfTag cs t).map (· + 1)

def HwpxEditor.set_paragraph_text (st : HwpxEditor) (index : Int) (text : String)
    (char_pr_id : Int) : Bool × HwpxEditor :=
  let ps := paraPositions st.root.children
  if index < 0 ∨ (ps.length : Int) ≤ index then (false, st)
  else
    let pos := (ps[index.toNat]?).getD 0
    let cs := modifyAt st.root.children pos (fun p =>
      let kept := p.children.filter (fun c => c.tag ≠ "hp:run")
      let run : Elem := Elem.mk "hp:run" [("charPrIDRef", toString char_pr_id)] none
        (textPartsChildren (pySplitNl text) true)
      p.withChildren (match firstIdxOfTag kept "hp:linesegarray" with
        | some k => insertAt kept k run
        | none => kept ++ [run]))
    (true, { root := st.root.withChildren cs, modified := true })

def HwpxEditor.copy_paragraph (st : HwpxEditor) (from_index to_index : Int) :
    Bool × HwpxEditor :=
  let ps := paraPositions st.root.children
  if from_index < 0 ∨ (ps.length : Int) ≤ from_index then (false, st)
  else if to_index < 0 ∨ (ps.length : Int) < to_index then (false, st)
  else
    let source := (st.root.children[(ps[from_index.toNat]?).getD 0]?).getD
      (Elem.mk "hp:p" [] none [])
    if (ps.length : Int) ≤ to_index then
      let cs := st.root.children ++ [source]
      (true, { root := st.root.withChildren cs, modified := true })
    else
      let cs := insertAt st.root.children ((ps[to_index.toNat]?).getD 0) source
      (true, { root := st.root.withChildren cs, modified := true })

def HwpxEditor.move_paragraph (st : HwpxEditor) (from_index to_index : Int) :
    Bool × HwpxEditor :=
  let ps := paraPositions st.root.children
  if from_index < 0 ∨ (ps.length : Int) ≤ from_index then (false, st)
  else if to_index < 0 ∨ (ps.length : Int) < to_index then (false, st)
  else if from_index = to_index then (true, st)
  else
    let srcPos := (ps[from_index.toNat]?).getD 0
    let source := (st.root.children[srcPos]?).getD (Elem.mk "hp:p" [] none [])
    let children1 := removeAt st.root.children srcPos
    let ps1 := paraPositions children1
    if (ps1.length : Int) ≤ to_index then
      let cs := children1 ++ [source]
      (true, { root := st.root.withChildren cs, modified := true })
    else
      let cs := insertAt children1 ((ps1[to_index.toNat]?).getD 0) source
      (true, { root := st.root.withChildren cs, modified := true })

def HwpxEditor.set_page_break (st : HwpxEditor) (index : Int) (enable : Bool) :
    Bool × HwpxEditor :=
  let ps := paraPositions st.root.children
  if index < 0 ∨ (ps.length : Int) ≤ index then (false, st)
  else
    let cs := modifyAt st.root.children ((ps[index.toNat]?).getD 0)
      (fun p => p.set "pageBreak" (if enable then "1" else "0"))
    (true, { root := st.root.withChildren cs, modified := true })

def HwpxEditor.set_column_break (st : HwpxEditor) (index : Int) (enable : Bool) :
    Bool × HwpxEditor :=
  let ps := paraPositions st.root.children
  if index < 0 ∨ (ps.length : Int) ≤ index then (false, st)
  else
    let cs := modifyAt st.root.children ((ps[index.toNat]?).getD 0)
      (fun p => p.set "columnBreak" (if enable then "1" else "0"))
    (true, { root := st.root.withChildren cs, modified := true })

def HwpxEditor.set_paragraph_style (st : HwpxEditor) (index : Int)
    (para_pr_id : Int) : Bool × HwpxEditor :=
  let ps := paraPositions st.root.children
  if index < 0 ∨ (ps.length : Int) ≤ index then (false, st)
  else
    let cs := modifyAt st.root.children ((ps[index.toNat]?).getD 0)
      (fun p => p.set "paraPrIDRef" (toString para_pr_id))
    (true, { root := st.root.withChildren cs, modified := true })

def HwpxEditor.set_char_style (st : HwpxEditor) (para_index : Int)
    (char_pr_id : Int) : Bool × HwpxEditor :=
  let ps := paraPositions st.root.children
  if para_index < 0 ∨ (ps.length : Int) ≤ para_index then (false, st)
  else
    let cs := modifyAt st.root.children ((ps[para_index.toNat]?).getD 0)
      (fun p => p.withChildren (p.children.map (fun c =>
        if c.tag = "hp:run" then c.set "charPrIDRef" (toString char_pr_id)
        else c)))
    (true, { root := st.root.withChildren cs, modified := true })

/-- `HwpxEditor._create_table_cell` (lines 541-623). -/
def createTableCell (row col : Nat) (width height : Int) (text : String)
    (border_fill_id : Int) : Elem :=
  .mk "hp:tc"
    [("name", ""), ("header", "0"), ("hasMargin", "0"), ("protect", "0"),
     ("editable", "0"), ("dirty", "0"), ("borderFillIDRef", toString border_fill_id)]
    none
    [.mk "hp:subList"
      [("id", ""), ("textDirection", "HORIZONTAL"), ("lineWrap", "BREAK"),
       ("vertAlign", "CENTER"), ("linkListIDRef", "0"), ("linkListNextIDRef", "0"),
       ("textWidth", "0"), ("textHeight", "0"), ("hasTextRef", "0"),
       ("hasNumRef", "0")]
      none
      [.mk "hp:p"
        [("id", "0"), ("paraPrIDRef", "0"), ("styleIDRef", "0"),
         ("pageBreak", "0"), ("columnBreak", "0"), ("merged", "0")]
        none
        [.mk "hp:run" [("charPrIDRef", "0")] none
          (if text ≠ "" then [Elem.mk "hp:t" [] (some text) []] else []),
         linesegarrayElem]],
     .mk "hp:cellAddr" [("colAddr", toString col), ("rowAddr", toString row)] none [],
     .mk "hp:cellSpan" [("colSpan", "1"), ("rowSpan", "1")] none [],
     .mk "hp:cellSz" [("width", toString width), ("height", toString height)] none [],
     .mk "hp:cellMargin"
      [("left", "141"), ("right", "141"), ("top", "141"), ("bottom", "141")]
      none []]

/-- The cell text drawn from `data` under the triple guard of line 521. -/
def tableCellText (data : Option (List (List String))) (row_idx col_idx : Nat) :
    String :=
  match data with
  | some d =>
    if pyTruthyL (some d) ∧ row_idx < d.length
        ∧ col_idx < ((d[row_idx]?).getD []).length
    then (((d[row_idx]?).getD [])[col_idx]?).getD ""
    else ""
  | none => ""

def tableRowElems (data : Option (List (List String))) (col_widths : List Int)
    (row_height : Int) (border_fill_id : Int) (rows cols : Nat) : List Elem :=
  (List.range rows).map (fun row_idx =>
    Elem.mk "hp:tr" [] none
      ((List.range cols).map (fun col_idx =>
        createTableCell row_idx col_idx ((col_widths[col_idx]?).getD 0) row_height
          (tableCellText data row_idx col_idx) border_fill_id)))

/-- `HwpxEditor._create_table_paragraph` (lines 434-539); `42520 // cols` is
Python floor division, and indexing `col_widths[col_idx]` — which can only
raise when the caller passes a list shorter than `cols` — is modelled with
default 0. -/
def createTableParagraph (rows cols : Int) (data : Option (List (List String)))
    (col_widths0 : Option (List Int)) (border_fill_id : Int) : Elem :=
  let col_widths : List Int :=
    if ¬pyTruthyL col_widths0 then List.replicate cols.toNat (Int.fdiv 42520 cols)
    else col_widths0.getD []
  let total_width := col_widths.sum
  let row_height : Int := 1000
  .mk "hp:p"
    [("id", "0"), ("paraPrIDRef", "0"), ("styleIDRef", "0"), ("pageBreak", "0"),
     ("columnBreak", "0"), ("merged", "0")]
    none
    [.mk "hp:run" [("charPrIDRef", "0")] none
      [.mk "hp:tbl"
        [("id", "0"), ("zOrder", "0"), ("numberingType", "TABLE"),
         ("textWrap", "TOP_AND_BOTTOM"), ("textFlow", "BOTH_SIDES"), ("lock", "0"),
         ("dropcapstyle", "None"), ("pageBreak", "CELL"), ("repeatHeader", "0"),
         ("rowCnt", toString rows), ("colCnt", toString cols),
         ("cellSpacing", "0"), ("borderFillIDRef", toString border_fill_id),
         ("noAdjust", "0")]
        none
        ([Elem.mk "hp:sz"
            [("width", toString total_width), ("widthRelTo", "ABSOLUTE"),
             ("height", toString (row_height * rows)), ("heightRelTo", "ABSOLUTE"),
             ("protect", "0")] none [],
          Elem.mk "hp:pos"
            [("treatAsChar", "1"), ("affectLSpacing", "0"), ("flowWithText", "1"),
             ("allowOverlap", "0"), ("holdAnchorAndSO", "0"), ("vertRelTo", "PARA"),
             ("horzRelTo", "COLUMN"), ("vertAlign", "TOP"), ("horzAlign", "LEFT"),
             ("vertOffset", "0"), ("horzOffset", "0")] none [],
          Elem.mk "hp:outMargin"
            [("left", "0"), ("right", "0"), ("top", "0"), ("bottom", "0")] none [],
          Elem.mk "hp:inMargin"
            [("left", "141"), ("right", "141"), ("top", "141"), ("bottom", "141")]
            none []] ++
         tableRowElems data col_widths row_height border_fill_id rows.toNat cols.toNat)],
     .mk "hp:linesegarray" [] none
      [.mk "hp:lineseg"
        [("textpos", "0"), ("vertpos", "0"),
         ("vertsize", toString (row_height * rows)),
         ("textheight", toString (row_height * rows)), ("baseline", "850"),
         ("spacing", "600"), ("horzpos", "0"),
         ("horzsize", toString total_width), ("flags", "393216")] none []]]

def HwpxEditor.insert_table_after (st : HwpxEditor) (after_index : Int)
    (rows cols : Int) (data : Option (List (List String)))
    (col_widths : Option (List Int)) (border_fill_id : Int) : Bool × HwpxEditor :=
  let ps := paraPositions st.root.children
  if after_index < 0 ∨ (ps.length : Int) ≤ after_index then (false, st)
  else
    let pos := (ps[after_index.toNat]?).getD 0
    let cs := insertAt st.root.children (pos + 1)
      (createTableParagraph rows cols data col_widths border_fill_id)
    (true, { root := st.root.withChildren cs, modified := true })

/-- `HwpxEditor._create_image_paragraph` (lines 664-814); `width // 2` is
Python floor division. -/
def createImageParagraph (binary_item_id : String) (width height : Int) : Elem :=
  .mk "hp:p"
    [("id", "0"), ("paraPrIDRef", "0"), ("styleIDRef", "0"), ("pageBreak", "0"),
     ("columnBreak", "0"), ("merged", "0")]
    none
    [.mk "hp:run" [("charPrIDRef", "0")] none
      [.mk "hp:pic"
        [("id", "0"), ("zOrder", "0"), ("numberingType", "PICTURE"),
         ("textWrap", "TOP_AND_BOTTOM"), ("textFlow", "BOTH_SIDES"), ("lock", "0"),
         ("dropcapstyle", "None"), ("href", ""), ("groupLevel", "0"),
         ("instid", "0"), ("reverse", "0")]
        none
        [.mk "hp:offset" [("x", "0"), ("y", "0")] none [],
         .mk "hp:orgSz" [("width", toString width), ("height", toString height)] none [],
         .mk "hp:curSz" [("width", toString width), ("height", toString height)] none [],
         .mk "hp:flip" [("horizontal", "0"), ("vertical", "0")] none [],
         .mk "hp:rotationInfo"
          [("angle", "0"), ("centerX", toString (Int.fdiv width 2)),
           ("centerY", toString (Int.fdiv height 2)), ("rotateimage", "1")] none [],
         .mk "hp:renderingInfo" [] none
          [.mk "hc:transMatrix"
            [("e1", "1"), ("e2", "0"), ("e3", "0"), ("e4", "0"), ("e5", "1"),
             ("e6", "0")] none [],
           .mk "hc:scaMatrix"
            [("e1", "1.000000"), ("e2", "0"), ("e3", "0"), ("e4", "0"),
             ("e5", "1.000000"), ("e6", "0")] none [],
           .mk "hc:rotMatrix"
            [("e1", "1.000000"), ("e2", "0"), ("e3", "0"), ("e4", "0"),
             ("e5", "1.000000"), ("e6", "0")] none []],
         .mk "hc:img"
          [("binaryItemIDRef", binary_item_id), ("effect", "REAL_PIC"),
           ("alpha", "0"), ("bright", "0"), ("contrast", "0")] none [],
         .mk "hp:imgRect" [] none
          [.mk "hc:pt0" [("x", "0"), ("y", "0")] none [],
           .mk "hc:pt1" [("x", toString width), ("y", "0")] none [],
           .mk "hc:pt2" [("x", toString width), ("y", toString height)] none [],
           .mk "hc:pt3" [("x", "0"), ("y", toString height)] none []],
         .mk "hp:imgClip"
          [("left", "0"), ("right", toString width), ("top", "0"),
           ("bottom", toString height)] none [],
         .mk "hp:inMargin"
          [("left", "0"), ("right", "0"), ("top", "0"), ("bottom", "0")] none [],
         .mk "hp:imgDim"
          [("dimwidth", toString width), ("dimheight", toString height)] none [],
         .mk "hp:effects" [] none [],
         .mk "hp:sz"
          [("width", toString width), ("widthRelTo", "ABSOLUTE"),
           ("height", toString height), ("heightRelTo", "ABSOLUTE"),
           ("protect", "0")] none [],
         .mk "hp:pos"
          [("treatAsChar", "1"), ("affectLSpacing", "0"), ("flowWithText", "1"),
           ("allowOverlap", "0"), ("holdAnchorAndSO", "0"), ("vertRelTo", "PARA"),
           ("horzRelTo", "COLUMN"), ("vertAlign", "TOP"), ("horzAlign", "LEFT"),
           ("vertOffset", "0"), ("horzOffset", "0")] none [],
         .mk "hp:outMargin"
          [("left", "0"), ("right", "0"), ("top", "0"), ("bottom", "0")] none [],
         .mk "hp:shapeComment" [] none []]],
     .mk "hp:linesegarray" [] none
      [.mk "hp:lineseg"
        [("textpos", "0"), ("vertpos", "0"), ("vertsize", toString height),
         ("textheight", toString height), ("baseline", "850"), ("spacing", "600"),
         ("horzpos", "0"), ("horzsize", toString width), ("flags", "393216")]
        none []]]

def HwpxEditor.insert_image_after (st : HwpxEditor) (after_index : Int)
    (binary_item_id : String) (width height : Int) : Bool × HwpxEditor :=
  let ps := paraPositions st.root.children
  if after_index < 0 ∨ (ps.length : Int) ≤ after_index then (false, st)
  else
    let pos := (ps[after_index.toNat]?).getD 0
    let cs := insertAt st.root.children (pos + 1)
      (createImageParagraph binary_item_id width height)
    (true, { root := st.root.withChildren cs, modified := true })

/-! ## The editor's operation vocabulary, for whole-session invariants -/

inductive EditResult where
  | b (ok : Bool)
  | n (count : Nat)
  deriving DecidableEq, Repr

/-- Every mutating operation of `HwpxEditor`, with its arguments. -/
inductive EditOp where
  | insertParagraphAfter (after_index : Int) (text : String) (para_pr_id char_pr_id : Int)
  | insertParagraphBefore (before_index : Int) (text : String) (para_pr_id char_pr_id : Int)
  | appendParagraph (text : String) (para_pr_id char_pr_id : Int)
  | deleteParagraph (index : Int)
  | deleteParagraphsRange (start stop : Int)
  | replaceText (old nw : String) (count : Int)
  | setParagraphText (index : Int) (text : String) (char_pr_id : Int)
  | copyParagraph (from_index to_index : Int)
  | moveParagraph (from_index to_index : Int)
  | setPageBreak (index : Int) (enable : Bool)
  | setColumnBreak (index : Int) (enable : Bool)
  | setParagraphStyle (index : Int) (para_pr_id : Int)
  | setCharStyle (para_index : Int) (char_pr_id : Int)
  | insertTableAfter (after_index : Int) (rows cols : Int)
      (data : Option (List (List String))) (col_widths : Option (List Int))
      (border_fill_id : Int)
  | insertImageAfter (after_index : Int) (binary_item_id : String) (width height : Int)

def step (op : EditOp) (st : HwpxEditor) : EditResult × HwpxEditor :=
  match op with
  | .insertParagraphAfter i t p c =>
    let r := st.insert_paragraph_after i t p c
    (.b r.1, r.2)
  | .insertParagraphBefore i t p c =>
    let r := st.insert_paragraph_before i t p c
    (.b r.1, r.2)
  | .appendParagraph t p c =>
    let r := st.append_paragraph t p c
    (.b r.1, r.2)
  | .deleteParagraph i =>
    let r := st.delete_paragraph i
    (.b r.1, r.2)
  | .deleteParagraphsRange a b =>
    let r := st.delete_paragraphs_range a b
    (.n r.1, r.2)
  | .replaceText o n c =>
    let r := st.replace_text o n c
    (.n r.1, r.2)
  | .setParagraphText i t c =>
    let r := st.set_paragraph_text i t c
    (.b r.1, r.2)
  | .copyParagraph f t =>
    let r := st.copy_paragraph f t
    (.b r.1, r.2)
  | .moveParagraph f t =>
    let r := st.move_paragraph f t
    (.b r.1, r.2)
  | .setPageBreak i e =>
    let r := st.set_page_break i e
    (.b r.1, r.2)
  | .setColumnBreak i e =>
    let r := st.set_column_break i e
    (.b r.1, r.2)
  | .setParagraphStyle i p =>
    let r := st.set_paragraph_style i p
    (.b r.1, r.2)
  | .setCharStyle i c =>
    let r := st.set_char_style i c
    (.b r.1, r.2)
  | .insertTableAfter i r c d w bf =>
    let x := st.insert_table_after i r c d w bf
    (.b x.1, x.2)
  | .insertImageAfter i b w h =>
    let r := st.insert_image_after i b w h
    (.b r.1, r.2)

def runOps : List EditOp → HwpxEditor → HwpxEditor
  | [], st => st
  | op :: ops, st => runOps ops (step op st).2

/-- An operation result that reports failure: `False`, or a count of 0
replacements/deletions. -/
def EditResult.isFailure : EditResult → Bool
  | .b ok => !ok
  | .n count => count = 0

/-! ## Counting facts about the replace primitives -/

theorem listStartsWith_append_self : ∀ (l t : List Char),
    listStartsWith l (l ++ t) = true
  | [], _ => rfl
  | a :: as, t => by
    rw [List.cons_append, listStartsWith]
    simp [listStartsWith_append_self as t]

theorem pyInL_append_self (nw t : List Char) : pyInL nw (nw ++ t) = true := by
  cases nw with
  | nil =>
    cases t with
    | nil => rfl
    | cons c r => rw [List.nil_append, pyInL, listStartsWith]; rfl
  | cons n ns =>
    rw [List.cons_append, pyInL, ← List.cons_append, listStartsWith_append_self]
    rfl

theorem countGo_pos (sub : List Char) (hsub : sub ≠ []) :
    ∀ s : List Char, pyInL sub s = true → 1 ≤ countGo sub s 0 := by
  intro s
  induction s with
  | nil =>
    intro h
    rw [pyInL] at h
    exact absurd (List.isEmpty_iff.mp h) hsub
  | cons c rest ih =>
    intro h
    rw [pyInL] at h
    cases sub with
    | nil => exact absurd rfl hsub
    | cons o os =>
      rw [countGo]
      by_cases hsw : listStartsWith (o :: os) (c :: rest) = true
      · rw [if_pos hsw]; omega
      · rw [if_neg hsw]
        rw [Bool.not_eq_true] at hsw
        rw [hsw, Bool.false_or] at h
        exact ih h

theorem pyCountL_pos (s sub : List Char) (h : pyInL sub s = true) :
    1 ≤ pyCountL s sub := by
  unfold pyCountL
  by_cases hsub : sub.isEmpty = true
  · rw [if_pos hsub]; omega
  · rw [if_neg hsub]
    exact countGo_pos sub (by simpa using hsub) s h

theorem replGo_contains (nw old : List Char) (hold : old ≠ []) :
    ∀ (s : List Char) (limit : Int), limit ≠ 0 → pyInL old s = true →
      pyInL nw (replGo nw old s 0 limit) = true := by
  intro s
  induction s with
  | nil =>
    intro limit _ h
    rw [pyInL] at h
    exact absurd (List.isEmpty_iff.mp h) hold
  | cons c rest ih =>
    intro limit hlim h
    rw [replGo]
    by_cases hsw : listStartsWith old (c :: rest) = true
    · rw [if_pos ⟨hlim, hsw⟩]
      exact pyInL_append_self nw _
    · rw [if_neg (fun hc => hsw hc.2)]
      rw [Bool.not_eq_true] at hsw
      rw [pyInL, hsw, Bool.false_or] at h
      rw [pyInL, ih limit hlim h]
      simp

theorem pyReplaceL_contains (s old nw : List Char) (limit : Int)
    (hlim : limit ≠ 0) (h : pyInL old s = true) :
    pyInL nw (pyReplaceL s old nw limit) = true := by
  unfold pyReplaceL
  by_cases he : old.isEmpty = true
  · rw [if_pos he]
    cases s with
    | nil =>
      rw [replEmpty, if_neg hlim]
      have := pyInL_append_self nw []
      rwa [List.append_nil] at this
    | cons c rest =>
      rw [replEmpty, if_neg hlim]
      exact pyInL_append_self nw _
  · rw [if_neg he]
    exact replGo_contains nw old (by simpa using he) s limit hlim h

theorem pyCount_of_replace_pos (s old nw : List Char) (limit : Int)
    (hlim : limit ≠ 0) (h : pyInL old s = true) :
    1 ≤ pyCountL (pyReplaceL s old nw limit) nw := by
  by_cases hn : nw.isEmpty = true
  · unfold pyCountL
    rw [if_pos hn]
    omega
  · exact pyCountL_pos _ _ (pyReplaceL_contains s old nw limit hlim h)

/-- Monotonicity and zero-stability of the per-node replacement step: the
counter never decreases, and an unchanged counter means an unchanged text. -/
theorem replaceNode_spec (old nw : String) (cnt : Int) (tx : Option String) (r : Nat) :
    r ≤ (replaceNode old nw cnt tx r).2.1 ∧
    ((replaceNode old nw cnt tx r).2.1 = r → (replaceNode old nw cnt tx r).1 = tx) := by
  cases tx with
  | none => exact ⟨le_rfl, fun _ => rfl⟩
  | some s =>
    simp only [replaceNode]
    by_cases hc : s ≠ "" ∧ pyInStr old s = true
    · rw [if_pos hc]
      have hin : pyInL old.data s.data = true := hc.2
      by_cases h1 : cnt = -1
      · rw [if_pos h1]
        have hk : 1 ≤ pyCountStr (pyReplaceStr s old nw (-1)) nw :=
          pyCount_of_replace_pos s.data old.data nw.data (-1) (by decide) hin
        constructor
        · show r ≤ r + pyCountStr (pyReplaceStr s old nw (-1)) nw
          omega
        · intro he
          exfalso
          have : r + pyCountStr (pyReplaceStr s old nw (-1)) nw = r := he
          omega
      · rw [if_neg h1]
        by_cases h2 : (0 : Int) < cnt - (r : Int)
        · rw [if_pos h2]
          have hk : 1 ≤ pyCountStr (pyReplaceStr s old nw (cnt - (r : Int))) nw :=
            pyCount_of_replace_pos s.data old.data nw.data (cnt - (r : Int))
              (by omega) hin
          have hr : 1 ≤ (cnt - (r : Int)).toNat := by omega
          constructor
          · show r ≤ r + min (cnt - (r : Int)).toNat
              (pyCountStr (pyReplaceStr s old nw (cnt - (r : Int))) nw)
            omega
          · intro he
            exfalso
            have : r + min (cnt - (r : Int)).toNat
                (pyCountStr (pyReplaceStr s old nw (cnt - (r : Int))) nw) = r := he
            omega
        · rw [if_neg h2]
          exact ⟨le_rfl, fun _ => rfl⟩
    · rw [if_neg hc]
      exact ⟨le_rfl, fun _ => rfl⟩

mutual

theorem replaceVisit_count (old nw : String) (cnt : Int) :
    ∀ (e : Elem) (r : Nat) (stop : Bool),
      r ≤ (replaceVisit old nw cnt e r stop).2.1 ∧
      ((replaceVisit old nw cnt e r stop).2.1 = r →
        (replaceVisit old nw cnt e r stop).1 = e)
  | .mk t a tx cs, r, stop => by
    rw [replaceVisit]
    dsimp only
    by_cases hhead : t = "hp:t" ∧ stop = false
    · rw [if_pos hhead]
      have hn := replaceNode_spec old nw cnt tx r
      have hl := replaceVisitList_count old nw cnt cs
        (replaceNode old nw cnt tx r).2.1 (replaceNode old nw cnt tx r).2.2
      constructor
      · exact le_trans hn.1 hl.1
      · intro he
        have h1 : (replaceNode old nw cnt tx r).2.1 = r := le_antisymm (by omega) hn.1
        have h2 := hl.2 (by rw [he, h1])
        rw [h2, hn.2 h1]
    · rw [if_neg hhead]
      have hl := replaceVisitList_count old nw cnt cs r stop
      constructor
      · exact hl.1
      · intro he
        rw [hl.2 he]

theorem replaceVisitList_count (old nw : String) (cnt : Int) :
    ∀ (cs : List Elem) (r : Nat) (stop : Bool),
      r ≤ (replaceVisitList old nw cnt cs r stop).2.1 ∧
      ((replaceVisitList old nw cnt cs r stop).2.1 = r →
        (replaceVisitList old nw cnt cs r stop).1 = cs)
  | [], r, stop => by
    rw [replaceVisitList]
    exact ⟨le_rfl, fun _ => rfl⟩
  | c :: cs, r, stop => by
    rw [replaceVisitList]
    dsimp only
    have hv := replaceVisit_count old nw cnt c r stop
    have hl := replaceVisitList_count old nw cnt cs
      (replaceVisit old nw cnt c r stop).2.1 (replaceVisit old nw cnt c r stop).2.2
    constructor
    · exact le_trans hv.1 hl.1
    · intro he
      have h1 : (replaceVisit old nw cnt c r stop).2.1 = r := le_antisymm (by omega) hv.1
      have h2 := hl.2 (by rw [he, h1])
      rw [h2, hv.2 h1]

end

theorem replace_text_zero (st : HwpxEditor) (old nw : String) (count : Int)
    (h : (st.replace_text old nw count).1 = 0) :
    (st.replace_text old nw count).2 = st := by
  unfold HwpxEditor.replace_text at h ⊢
  dsimp only at h ⊢
  have hc := replaceVisitList_count old nw count st.root.children 0 false
  have hch := hc.2 h
  rw [hch, Elem.withChildren_self, h]
  rfl

theorem removeParasIn_empty (lo hi : Nat) (h : hi ≤ lo) :
    ∀ (cs : List Elem) (k : Nat), removeParasIn lo hi cs k = cs := by
  intro cs
  induction cs with
  | nil => intro k; rfl
  | cons c cs ih =>
    intro k
    rw [removeParasIn]
    by_cases hc : c.tag = "hp:p"
    · rw [if_pos hc, if_neg (fun hk => by omega), ih]
    · rw [if_neg hc, ih]

theorem delete_range_zero (st : HwpxEditor) (start stop : Int)
    (h : (st.delete_paragraphs_range start stop).1 = 0) :
    (st.delete_paragraphs_range start stop).2 = st := by
  unfold HwpxEditor.delete_paragraphs_range at h ⊢
  dsimp only at h ⊢
  have hle : min stop ((paraPositions st.root.children).length : Int)
      ≤ max 0 start := by omega
  have htn : (min stop ((paraPositions st.root.children).length : Int)).toNat
      ≤ (max 0 start).toNat := Int.toNat_le_toNat hle
  rw [removeParasIn_empty _ _ htn, Elem.withChildren_self, h]
  rfl

/-- C7 is a code bug: on the single text node "ba", replacing "a" by "b"
with unlimited count performs exactly one substring replacement (the text
becomes "bb"; "ba" contains exactly one occurrence of "a"), yet
`replace_text` returns 2, because it counts occurrences of the *new* text in
the modified node — including the pre-existing "b". -/
theorem replace_text_count_bug :
    (HwpxEditor.replace_text (HwpxEditor.init (Elem.mk "hs:sec" [] none
        [Elem.mk "hp:p" [] none [Elem.mk "hp:run" [] none
          [Elem.mk "hp:t" [] (some "ba") []]]])) "a" "b" (-1)).1 = 2 ∧
    pyCountStr "ba" "a" = 1 ∧
    (HwpxEditor.replace_text (HwpxEditor.init (Elem.mk "hs:sec" [] none
        [Elem.mk "hp:p" [] none [Elem.mk "hp:run" [] none
          [Elem.mk "hp:t" [] (some "ba") []]]])) "a" "b" (-1)).2.root
      = Elem.mk "hs:sec" [] none
          [Elem.mk "hp:p" [] none [Elem.mk "hp:run" [] none
            [Elem.mk "hp:t" [] (some "bb") []]]] :=
  ⟨by decide, by decide, by decide⟩

/-- C8: `delete_paragraph` on any out-of-range index (negative, or at least
the top-level paragraph count) returns `False` and leaves the editor state —
the parsed tree (hence its serialization) and the paragraph count — exactly
unchanged. -/
theorem delete_paragraph_bounds_safe (st : HwpxEditor) (index : Int)
    (h : index < 0 ∨ ((paraPositions st.root.children).length : Int) ≤ index) :
    st.delete_paragraph index = (false, st) ∧
    (st.delete_paragraph index).2.numParas = st.numParas := by
  have h1 : st.delete_paragraph index = (false, st) := by
    unfold HwpxEditor.delete_paragraph
    rw [if_pos h]
  exact ⟨h1, by rw [h1]⟩

/-- Witness for C8 on the empty body and index 0. -/
theorem delete_paragraph_bounds_safe_witness :
    (HwpxEditor.init (Elem.mk "hs:sec" [] none [])).delete_paragraph 0
      = (false, HwpxEditor.init (Elem.mk "hs:sec" [] none [])) :=
  (delete_paragraph_bounds_safe (HwpxEditor.init (Elem.mk "hs:sec" [] none []))
    0 (Or.inr (by decide))).1

theorem step_modified_mono (op : EditOp) (st : HwpxEditor) (h : st.modified = true) :
    (step op st).2.modified = true := by
  cases op <;>
    simp only [step, HwpxEditor.insert_paragraph_after,
      HwpxEditor.insert_paragraph_before, HwpxEditor.append_paragraph,
      HwpxEditor.delete_paragraph, HwpxEditor.delete_paragraphs_range,
      HwpxEditor.replace_text, HwpxEditor.set_paragraph_text,
      HwpxEditor.copy_paragraph, HwpxEditor.move_paragraph,
      HwpxEditor.set_page_break, HwpxEditor.set_column_break,
      HwpxEditor.set_paragraph_style, HwpxEditor.set_char_style,
      HwpxEditor.insert_table_after, HwpxEditor.insert_image_after] <;>
    (repeat' split) <;> simp [h]

theorem runOps_modified_mono : ∀ (ops : List EditOp) (st : HwpxEditor),
    st.modified = true → (runOps ops st).modified = true := by
  intro ops
  induction ops with
  | nil => intro st h; exact h
  | cons op ops ih => intro st h; exact ih _ (step_modified_mono op st h)

theorem step_failure_unchanged (op : EditOp) (st : HwpxEditor)
    (h : (step op st).1.isFailure = true) : (step op st).2 = st := by
  cases op with
  | deleteParagraphsRange a b =>
    simp only [step, EditResult.isFailure] at h ⊢
    exact delete_range_zero st a b (by simpa using h)
  | replaceText o n c =>
    simp only [step, EditResult.isFailure] at h ⊢
    exact replace_text_zero st o n c (by simpa using h)
  | appendParagraph t p c =>
    simp [step, HwpxEditor.append_paragraph, EditResult.isFailure] at h
  | insertParagraphAfter i t p c =>
    simp only [step, HwpxEditor.insert_paragraph_after] at h ⊢
    (repeat' split at h) <;> (repeat' split) <;>
      simp_all [EditResult.isFailure]
  | insertParagraphBefore i t p c =>
    simp only [step, HwpxEditor.insert_paragraph_before] at h ⊢
    (repeat' split at h) <;> (repeat' split) <;>
      simp_all [EditResult.isFailure]
  | deleteParagraph i =>
    simp only [step, HwpxEditor.delete_paragraph] at h ⊢
    (repeat' split at h) <;> (repeat' split) <;>
      simp_all [EditResult.isFailure]
  | setParagraphText i t c =>
    simp only [step, HwpxEditor.set_paragraph_text] at h ⊢
    (repeat' split at h) <;> (repeat' split) <;>
      simp_all [EditResult.isFailure]
  | copyParagraph f t =>
    simp only [step, HwpxEditor.copy_paragraph] at h ⊢
    (repeat' split at h) <;> (repeat' split) <;>
      simp_all [EditResult.isFailure]
  | moveParagraph f t =>
    simp only [step, HwpxEditor.move_paragraph] at h ⊢
    (repeat' split at h) <;> (repeat' split) <;>
      simp_all [EditResult.isFailure]
  | setPageBreak i e =>
    simp only [step, HwpxEditor.set_page_break] at h ⊢
    (repeat' split at h) <;> (repeat' split) <;>
      simp_all [EditResult.isFailure]
  | setColumnBreak i e =>
    simp only [step, HwpxEditor.set_column_break] at h ⊢
    (repeat' split at h) <;> (repeat' split) <;>
      simp_all [EditResult.isFailure]
  | setParagraphStyle i p =>
    simp only [step, HwpxEditor.set_paragraph_style] at h ⊢
    (repeat' split at h) <;> (repeat' split) <;>
      simp_all [EditResult.isFailure]
  | setCharStyle i c =>
    simp only [step, HwpxEditor.set_char_style] at h ⊢
    (repeat' split at h) <;> (repeat' split) <;>
      simp_all [EditResult.isFailure]
  | insertTableAfter i r c d w bf =>
    simp only [step, HwpxEditor.insert_table_after] at h ⊢
    (repeat' split at h) <;> (repeat' split) <;>
      simp_all [EditResult.isFailure]
  | insertImageAfter i b w hh =>
    simp only [step, HwpxEditor.insert_image_after] at h ⊢
    (repeat' split at h) <;> (repeat' split) <;>
      simp_all [EditResult.isFailure]

theorem move_paragraph_equal (st : HwpxEditor) (i : Int) (h0 : 0 ≤ i)
    (h1 : i < ((paraPositions st.root.children).length : Int)) :
    st.move_paragraph i i = (true, st) := by
  unfold HwpxEditor.move_paragraph
  dsimp only
  rw [if_neg (fun hc => by rcases hc with hc | hc <;> omega),
    if_neg (fun hc => by rcases hc with hc | hc <;> omega),
    if_pos rfl]

/-- C10 counterexample: on an empty body, `move_paragraph 0 0` has equal
source and destination indices but reports `False` (the bounds check comes
first), not the claimed `True`. -/
theorem editor_move_equal_counterexample :
    (HwpxEditor.init (Elem.mk "hs:sec" [] none [])).move_paragraph 0 0
      = (false, HwpxEditor.init (Elem.mk "hs:sec" [] none [])) := by
  decide

/-- C10 amended: for every editor instance, `is_modified` is `False` at
construction and never transitions from `True` back to `False` under any
sequence of mutating operations; every mutating operation that reports
failure (returns `False`, or 0 deletions/replacements) leaves both the
modified flag and the parsed XML tree exactly unchanged; and
`move_paragraph` with equal and *in-range* source and destination indices
reports success (`True`) without setting the modified flag — with equal but
out-of-range indices it reports `False` instead. -/
theorem editor_modified_invariant :
    (∀ root : Elem, (HwpxEditor.init root).modified = false) ∧
    (∀ (ops : List EditOp) (st : HwpxEditor), st.modified = true →
      (runOps ops st).modified = true) ∧
    (∀ (op : EditOp) (st : HwpxEditor), (step op st).1.isFailure = true →
      (step op st).2 = st) ∧
    (∀ (st : HwpxEditor) (i : Int), 0 ≤ i →
      i < ((paraPositions st.root.children).length : Int) →
      st.move_paragraph i i = (true, st)) :=
  ⟨fun _ => rfl, runOps_modified_mono, step_failure_unchanged, move_paragraph_equal⟩

/-- Witness for C10's amended theorem: flag monotone over a concrete run, a
failing delete leaves a concrete state unchanged, and an in-range
equal-index move succeeds without modification. -/
theorem editor_modified_invariant_witness :
    (runOps [.appendParagraph "x" 0 0]
        { root := Elem.mk "hs:sec" [] none [], modified := true }).modified = true ∧
    (step (.deleteParagraph 5) (HwpxEditor.init (Elem.mk "hs:sec" [] none []))).2
      = HwpxEditor.init (Elem.mk "hs:sec" [] none []) ∧
    (HwpxEditor.init
        (Elem.mk "hs:sec" [] none [Elem.mk "hp:p" [] none []])).move_paragraph 0 0
      = (true, HwpxEditor.init (Elem.mk "hs:sec" [] none [Elem.mk "hp:p" [] none []])) :=
  ⟨editor_modified_invariant.2.1 [.appendParagraph "x" 0 0]
      { root := Elem.mk "hs:sec" [] none [], modified := true } rfl,
   editor_modified_invariant.2.2.1 (.deleteParagraph 5)
      (HwpxEditor.init (Elem.mk "hs:sec" [] none [])) (by decide),
   editor_modified_invariant.2.2.2
      (HwpxEditor.init (Elem.mk "hs:sec" [] none [Elem.mk "hp:p" [] none []]))
      0 (by decide) (by decide)⟩

/-! ## Manifest rewriting (`HwpxIrWriter._build_content_hpf`)

`hwpx_ir/writer.py` lines 336-378 and the identical `hwpx_ir/hwpx_writer.py`
lines 195-239.  The `<opf:manifest>` is modelled as the list of its
`<opf:item>` children, each reduced to the four attributes the function
reads or writes.  Python's `existing_by_id` dict stores *element object
references*; to render that aliasing purely, every item carries a stable
numeric tag (its original child position; appended items get fresh tags) and
the dict maps id strings to tags.
-/

structure ManifestItem where
  id : Option String
  href : Option String
  mediaType : Option String
  isEmbeded : Option String
  deriving DecidableEq, Repr

/-- `HwpxBinaryItem` (`writer.py` lines 34-39); bytes are opaque. -/
structure HwpxBinaryItem where
  id : String
  filename : String
  data : String
  deriving DecidableEq, Repr

def strStartsWith (s pre : String) : Bool := listStartsWith pre.data s.data

def strEndsWith (s suf : String) : Bool :=
  listStartsWith suf.data.reverse s.data.reverse

/-- ASCII lowering, the fragment of Python `str.lower` exercised by file
name extensions. -/
def pyLowerChar (c : Char) : Char :=
  if 'A' ≤ c ∧ c ≤ 'Z' then Char.ofNat (c.toNat + 32) else c

/-- `_guess_media_type` (`hwpx_writer.py` lines 9-19); `guess_media_type` of
`base.py` is the same table. -/
def guess_media_type (filename : String) : String :=
  let lower := String.mk (filename.data.map pyLowerChar)
  if strEndsWith lower ".jpg" ∨ strEndsWith lower ".jpeg" then "image/jpeg"
  else if strEndsWith lower ".png" then "image/png"
  else if strEndsWith lower ".gif" then "image/gif"
  else if strEndsWith lower ".bmp" then "image/bmp"
  else "application/octet-stream"

def truthyId (it : ManifestItem) : Bool := pyTruthyS it.id

def idStr (it : ManifestItem) : String := it.id.getD ""

/-- `item.get("href") or ""`. -/
def hrefStr (it : ManifestItem) : String := it.href.getD ""

/-- The unconditional attribute writes of the add loop (lines 374-376). -/
def setBinAttrs (it : ManifestItem) (filename : String) : ManifestItem :=
  { it with href := some ("BinData/" ++ filename),
            mediaType := some (guess_media_type filename),
            isEmbeded := some "1" }

/-- A freshly appended `<opf:item>` (lines 370-372 then 374-376). -/
def newManifestItem (bid filename : String) : ManifestItem :=
  { id := some bid, href := some ("BinData/" ++ filename),
    mediaType := some (guess_media_type filename), isEmbeded := some "1" }

/-- Removal condition of the pruning loop (lines 354-362): a BinData href
whose id is falsy or not among the binary-item keys. -/
def removeCond (bkeys : List String) (it : ManifestItem) : Bool :=
  strStartsWith (hrefStr it) "BinData/" &&
    (!truthyId it || !(decide (idStr it ∈ bkeys)))

/-- Tag the manifest items with their child positions. -/
def tagFrom (n : Nat) : List ManifestItem → List (Nat × ManifestItem)
  | [] => []
  | it :: rest => (n, it) :: tagFrom (n + 1) rest

/-- First loop (lines 347-351): register every truthy id in
`existing_by_id`; a later duplicate overwrites. -/
def buildDict : List (Nat × ManifestItem) → List (String × Nat) →
    List (String × Nat)
  | [], d => d
  | (t, it) :: rest, d =>
    buildDict rest (if truthyId it then dictPut d (idStr it) t else d)

/-- Python `existing_by_id.pop(k, None)`. -/
def dictErase (d : List (String × Nat)) (k : String) : List (String × Nat) :=
  d.filter (fun p => p.1 ≠ k)

/-- Second loop (lines 354-362): drop stale BinData items from the manifest
and pop their dict entries. -/
def removePass (bkeys : List String) :
    List (Nat × ManifestItem) → List (String × Nat) →
    List (Nat × ManifestItem) × List (String × Nat)
  | [], d => ([], d)
  | (t, it) :: rest, d =>
    if removeCond bkeys it then
      removePass bkeys rest (if truthyId it then dictErase d (idStr it) else d)
    else
      let r := removePass bkeys rest d
      ((t, it) :: r.1, r.2)

/-- In-place mutation of the manifest element carrying tag `t` (the element
object the dict resolved to); every other element is untouched. -/
def updAt (t : Nat) (f : String) (p : Nat × ManifestItem) : Nat × ManifestItem :=
  (p.1, if p.1 = t then setBinAttrs p.2 f else p.2)

/-- Third loop (lines 364-376): per binary item, mutate the dict's element
(found by tag) in place, or append a fresh item and register it. -/
def addPass : List (String × HwpxBinaryItem) → List (Nat × ManifestItem) →
    List (String × Nat) → Nat →
    List (Nat × ManifestItem) × List (String × Nat) × Nat
  | [], m, d, nt => (m, d, nt)
  | (bid, b) :: rest, m, d, nt =>
    match dictGet d bid with
    | some t => addPass rest (m.map (updAt t b.filename)) d nt
    | none =>
      addPass rest (m ++ [(nt, newManifestItem bid b.filename)])
        (dictPut d bid nt) (nt + 1)

/-- `HwpxIrWriter._build_content_hpf`, reduced to its manifest rewriting:
template `<opf:item>` list in, rewritten item list out. -/
def HwpxIrWriter.build_content_hpf (items : List ManifestItem)
    (binary_items : List (String × HwpxBinaryItem)) : List ManifestItem :=
  let manifest := tagFrom 0 items
  let d0 := buildDict manifest []
  let r := removePass (binary_items.map (·.1)) manifest d0
  ((addPass binary_items r.1 r.2 items.length).1).map (·.2)

/-- Does the manifest item carry this binary id? -/
def idMatches (it : ManifestItem) (k : String) : Bool := decide (it.id = some k)

def binFor (bins : List (String × HwpxBinaryItem)) (it : ManifestItem) :
    Option (String × HwpxBinaryItem) :=
  bins.find? (fun p => idMatches it p.1)

/-- Rewrite one surviving item: if its id is carried by some input binary
item, it is redirected to that binary asset, otherwise left unchanged. -/
def applyBin (bins : List (String × HwpxBinaryItem)) (it : ManifestItem) :
    ManifestItem :=
  match binFor bins it with
  | some q => setBinAttrs it q.2.filename
  | none => it

/-- The template items that survive the pruning pass. -/
def keptItems (items : List ManifestItem)
    (bins : List (String × HwpxBinaryItem)) : List ManifestItem :=
  items.filter (fun it => !removeCond (bins.map (·.1)) it)

/-- Modelled from the amended claim's words: manifest items referencing a
missing BinData asset are pruned; surviving items whose id matches an input
binary id are updated in place to reference that binary asset; every input
binary id matching no surviving item is appended at the end, in map order,
as a fresh embedded item. -/
def specManifestRewrite (items : List ManifestItem)
    (bins : List (String × HwpxBinaryItem)) : List ManifestItem :=
  (keptItems items bins).map (applyBin bins) ++
  (bins.filter (fun p => !((keptItems items bins).any (fun it => idMatches it p.1)))).map
    (fun p => newManifestItem p.1 p.2.filename)

theorem dictGet_erase_self (d : List (String × Nat)) (k : String) :
    dictGet (dictErase d k) k = none := by
  induction d with
  | nil => rfl
  | cons p rest ih =>
    unfold dictErase at ih ⊢
    rw [List.filter_cons]
    by_cases h : p.1 = k
    · rw [if_neg (by simp [h])]
      exact ih
    · rw [if_pos (by simp [h])]
      simp only [dictGet]
      rw [if_neg h]
      exact ih

theorem dictGet_erase_ne (d : List (String × Nat)) (k k' : String) (h : k' ≠ k) :
    dictGet (dictErase d k) k' = dictGet d k' := by
  induction d with
  | nil => rfl
  | cons p rest ih =>
    unfold dictErase at ih ⊢
    rw [List.filter_cons]
    by_cases hp : p.1 = k
    · have hp' : ¬p.1 = k' := by rw [hp]; exact fun he => h he.symm
      rw [if_neg (by simp [hp])]
      conv => rhs; rw [dictGet]
      rw [if_neg hp']
      exact ih
    · rw [if_pos (by simp [hp])]
      simp only [dictGet]
      rw [ih]

theorem setBinAttrs_id (it : ManifestItem) (f : String) :
    (setBinAttrs it f).id = it.id := rfl

theorem truthy_id_some (it : ManifestItem) (h : truthyId it = true) :
    it.id = some (idStr it) ∧ idStr it ≠ "" := by
  cases hid : it.id with
  | none => simp [truthyId, pyTruthyS, hid] at h
  | some s =>
    simp [truthyId, pyTruthyS, hid] at h
    refine ⟨?_, ?_⟩ <;> simp [idStr, hid, h]

theorem truthy_of_id (it : ManifestItem) (k : String) (h1 : it.id = some k)
    (hk : k ≠ "") : truthyId it = true ∧ idStr it = k := by
  refine ⟨?_, ?_⟩
  · simp [truthyId, pyTruthyS, h1, hk]
  · simp [idStr, h1]

theorem tagFrom_tag_le (l : List ManifestItem) :
    ∀ (n : Nat) (p : Nat × ManifestItem), p ∈ tagFrom n l → n ≤ p.1 := by
  induction l with
  | nil => intro n p h; cases h
  | cons a rest ih =>
    intro n p h
    rw [tagFrom] at h
    rcases List.mem_cons.mp h with h1 | h2
    · subst h1; exact le_refl n
    · exact Nat.le_of_succ_le (ih (n + 1) p h2)

theorem tagFrom_tag_lt (l : List ManifestItem) :
    ∀ (n : Nat) (p : Nat × ManifestItem), p ∈ tagFrom n l → p.1 < n + l.length := by
  induction l with
  | nil => intro n p h; cases h
  | cons a rest ih =>
    intro n p h
    rw [tagFrom] at h
    rcases List.mem_cons.mp h with h1 | h2
    · subst h1; simp only [List.length_cons]; omega
    · have := ih (n + 1) p h2
      simp only [List.length_cons]; omega

theorem tagFrom_mem_snd (l : List ManifestItem) :
    ∀ (n : Nat) (p : Nat × ManifestItem), p ∈ tagFrom n l → p.2 ∈ l := by
  induction l with
  | nil => intro n p h; cases h
  | cons a rest ih =>
    intro n p h
    rw [tagFrom] at h
    rcases List.mem_cons.mp h with h1 | h2
    · subst h1; exact List.mem_cons_self a rest
    · exact List.mem_cons_of_mem a (ih (n + 1) p h2)

theorem tagFrom_map_snd (l : List ManifestItem) :
    ∀ n : Nat, (tagFrom n l).map (·.2) = l := by
  induction l with
  | nil => intro n; rfl
  | cons a rest ih => intro n; rw [tagFrom]; simp [ih]

theorem tagFrom_tags_nodup (l : List ManifestItem) :
    ∀ n : Nat, ((tagFrom n l).map (·.1)).Nodup := by
  induction l with
  | nil => intro n; simp [tagFrom]
  | cons a rest ih =>
    intro n
    rw [tagFrom]
    simp only [List.map_cons, List.nodup_cons]
    refine ⟨?_, ih (n + 1)⟩
    intro hmem
    rcases List.mem_map.mp hmem with ⟨p, hp, hpn⟩
    have := tagFrom_tag_le rest (n + 1) p hp
    omega

theorem tagsNodup_tagFun {β : Type} :
    ∀ l : List (Nat × β), (l.map (·.1)).Nodup →
      ∀ t a b, (t, a) ∈ l → (t, b) ∈ l → a = b := by
  intro l
  induction l with
  | nil => intro _ t a b ha; cases ha
  | cons p rest ih =>
    intro hnd t a b ha hb
    simp only [List.map_cons, List.nodup_cons] at hnd
    rcases List.mem_cons.mp ha with h1 | h1 <;> rcases List.mem_cons.mp hb with h2 | h2
    · have h3 := h1.trans h2.symm
      simp at h3
      exact h3
    · exfalso
      exact hnd.1 (List.mem_map.mpr ⟨(t, b), h2, by rw [← h1]⟩)
    · exfalso
      exact hnd.1 (List.mem_map.mpr ⟨(t, a), h1, by rw [← h2]⟩)
    · exact ih hnd.2 t a b h1 h2

theorem tagFrom_unique_ids (l : List ManifestItem) :
    ∀ n : Nat,
      l.Pairwise (fun a b => ∀ k : String, k ≠ "" → a.id = some k → b.id ≠ some k) →
      ∀ (t1 : Nat) (it1 : ManifestItem) (t2 : Nat) (it2 : ManifestItem) (k : String),
        (t1, it1) ∈ tagFrom n l → (t2, it2) ∈ tagFrom n l →
        it1.id = some k → it2.id = some k → k ≠ "" → t1 = t2 := by
  induction l with
  | nil => intro n _ t1 it1 t2 it2 k h1; cases h1
  | cons a rest ih =>
    intro n hpw t1 it1 t2 it2 k h1 h2 hi1 hi2 hk
    rw [List.pairwise_cons] at hpw
    rw [tagFrom] at h1 h2
    rcases List.mem_cons.mp h1 with g1 | g1 <;> rcases List.mem_cons.mp h2 with g2 | g2
    · have e1 : t1 = n := congrArg Prod.fst g1
      have e2 : t2 = n := congrArg Prod.fst g2
      rw [e1, e2]
    · exfalso
      have ea : it1 = a := congrArg Prod.snd g1
      have hmem : it2 ∈ rest := tagFrom_mem_snd rest (n + 1) (t2, it2) g2
      exact hpw.1 it2 hmem k hk (ea ▸ hi1) hi2
    · exfalso
      have ea : it2 = a := congrArg Prod.snd g2
      have hmem : it1 ∈ rest := tagFrom_mem_snd rest (n + 1) (t1, it1) g1
      exact hpw.1 it1 hmem k hk (ea ▸ hi2) hi1
    · exact ih (n + 1) hpw.2 t1 it1 t2 it2 k g1 g2 hi1 hi2 hk

theorem listMapCongr {α β : Type} (f g : α → β) :
    ∀ l : List α, (∀ a ∈ l, f a = g a) → l.map f = l.map g := by
  intro l
  induction l with
  | nil => intro _; rfl
  | cons a rest ih =>
    intro h
    simp only [List.map_cons]
    rw [h a (List.mem_cons_self a rest),
      ih (fun b hb => h b (List.mem_cons_of_mem a hb))]

theorem listFilterCongr {α : Type} (p q : α → Bool) :
    ∀ l : List α, (∀ a ∈ l, p a = q a) → l.filter p = l.filter q := by
  intro l
  induction l with
  | nil => intro _; rfl
  | cons a rest ih =>
    intro h
    rw [List.filter_cons, List.filter_cons, h a (List.mem_cons_self a rest),
      ih (fun b hb => h b (List.mem_cons_of_mem a hb))]

theorem listAnyCongr {α : Type} (p q : α → Bool) :
    ∀ l : List α, (∀ a ∈ l, p a = q a) → l.any p = l.any q := by
  intro l
  induction l with
  | nil => intro _; rfl
  | cons a rest ih =>
    intro h
    rw [List.any_cons, List.any_cons, h a (List.mem_cons_self a rest),
      ih (fun b hb => h b (List.mem_cons_of_mem a hb))]

theorem listAnyMapCongr {α β : Type} (f g : α → β) (p : β → Bool) :
    ∀ l : List α, (∀ a ∈ l, p (f a) = p (g a)) →
      (l.map f).any p = (l.map g).any p := by
  intro l
  induction l with
  | nil => intro _; rfl
  | cons a rest ih =>
    intro h
    simp only [List.map_cons, List.any_cons]
    rw [h a (List.mem_cons_self a rest),
      ih (fun b hb => h b (List.mem_cons_of_mem a hb))]

theorem buildDict_untouched :
    ∀ (m : List (Nat × ManifestItem)) (d : List (String × Nat)) (k : String),
      (∀ (t : Nat) (it : ManifestItem), (t, it) ∈ m → it.id = some k → k ≠ "" → False) →
      dictGet (buildDict m d) k = dictGet d k := by
  intro m
  induction m with
  | nil => intro d k _; rfl
  | cons p rest ih =>
    intro d k hk
    obtain ⟨t, it⟩ := p
    rw [buildDict]
    rw [ih _ k (fun t' it' hm hi hk' => hk t' it' (List.mem_cons_of_mem _ hm) hi hk')]
    by_cases ht : truthyId it = true
    · rw [if_pos ht]
      obtain ⟨hid, hne⟩ := truthy_id_some it ht
      have hkk : idStr it ≠ k := by
        intro he
        exact hk t it (List.mem_cons_self _ _) (he ▸ hid) (he ▸ hne)
      exact dictGet_put_ne d (idStr it) k t (fun he => hkk he.symm)
    · rw [if_neg ht]

theorem buildDict_mem :
    ∀ (m : List (Nat × ManifestItem)) (d : List (String × Nat)) (k : String) (t : Nat),
      dictGet (buildDict m d) k = some t →
      (∃ it, (t, it) ∈ m ∧ it.id = some k ∧ k ≠ "") ∨ dictGet d k = some t := by
  intro m
  induction m with
  | nil => intro d k t h; exact Or.inr h
  | cons p rest ih =>
    intro d k t h
    obtain ⟨t0, it0⟩ := p
    rw [buildDict] at h
    rcases ih _ k t h with hl | hr
    · rcases hl with ⟨it, hm, hi, hk⟩
      exact Or.inl ⟨it, List.mem_cons_of_mem _ hm, hi, hk⟩
    · by_cases ht : truthyId it0 = true
      · rw [if_pos ht] at hr
        by_cases hkk : idStr it0 = k
        · rw [hkk, dictGet_put_self] at hr
          obtain ⟨hid, hne⟩ := truthy_id_some it0 ht
          have h2 : t0 = t := Option.some.inj hr
          refine Or.inl ⟨it0, ?_, hkk ▸ hid, hkk ▸ hne⟩
          rw [← h2]
          exact List.mem_cons_self _ _
        · rw [dictGet_put_ne d (idStr it0) k t0 (fun he => hkk he.symm)] at hr
          exact Or.inr hr
      · rw [if_neg ht] at hr
        exact Or.inr hr

theorem buildDict_hit :
    ∀ (m : List (Nat × ManifestItem)) (d : List (String × Nat)) (k : String)
      (t : Nat) (it : ManifestItem),
      (m.map (·.1)).Nodup →
      (∀ (t1 : Nat) (it1 : ManifestItem) (t2 : Nat) (it2 : ManifestItem) (k' : String),
        (t1, it1) ∈ m → (t2, it2) ∈ m → it1.id = some k' → it2.id = some k' →
        k' ≠ "" → t1 = t2) →
      (t, it) ∈ m → it.id = some k → k ≠ "" →
      dictGet (buildDict m d) k = some t := by
  intro m
  induction m with
  | nil => intro d k t it _ _ hm; cases hm
  | cons p rest ih =>
    intro d k t it hnd huniq hm hid hk
    obtain ⟨t0, it0⟩ := p
    rw [buildDict]
    rcases List.mem_cons.mp hm with h1 | h1
    · have et : t0 = t := (congrArg Prod.fst h1).symm
      have ei : it0 = it := (congrArg Prod.snd h1).symm
      have hid0 : it0.id = some k := by rw [ei]; exact hid
      obtain ⟨htr0, his0⟩ := truthy_of_id it0 k hid0 hk
      have hrest : ∀ (t' : Nat) (it' : ManifestItem), (t', it') ∈ rest →
          it'.id = some k → k ≠ "" → False := by
        intro t' it' hm' hi' _
        have ht' : t' = t0 := huniq t' it' t0 it0 k (List.mem_cons_of_mem _ hm')
          (List.mem_cons_self _ _) hi' hid0 hk
        simp only [List.map_cons, List.nodup_cons] at hnd
        exact hnd.1 (List.mem_map.mpr ⟨(t', it'), hm', ht'⟩)
      rw [if_pos htr0]
      rw [buildDict_untouched rest _ k hrest]
      rw [his0, et]
      exact dictGet_put_self d k t
    · have hnd2 : (rest.map (·.1)).Nodup := by
        simp only [List.map_cons, List.nodup_cons] at hnd
        exact hnd.2
      exact ih _ k t it hnd2
        (fun t1 it1 t2 it2 k' m1 m2 => huniq t1 it1 t2 it2 k'
          (List.mem_cons_of_mem _ m1) (List.mem_cons_of_mem _ m2))
        h1 hid hk

theorem mem_append_drop_mid {α : Type} (pre rest : List α) (x y : α)
    (h : y ∈ pre ++ rest) : y ∈ pre ++ x :: rest := by
  rcases List.mem_append.mp h with h1 | h1
  · exact List.mem_append.mpr (Or.inl h1)
  · exact List.mem_append.mpr (Or.inr (List.mem_cons_of_mem x h1))

theorem tagsNodup_drop_mid {β : Type} (pre rest : List (Nat × β)) (x : Nat × β)
    (h : ((pre ++ x :: rest).map (·.1)).Nodup) : ((pre ++ rest).map (·.1)).Nodup := by
  have h2 : (x.1 :: (pre.map (·.1) ++ rest.map (·.1))).Nodup := by
    rw [← List.nodup_middle]
    simpa using h
  rw [List.map_append]
  exact (List.nodup_cons.mp h2).2

theorem tagsNodup_ne_mid {β : Type} (pre rest : List (Nat × β)) (x : Nat × β)
    (h : ((pre ++ x :: rest).map (·.1)).Nodup) :
    ∀ q ∈ pre ++ rest, q.1 ≠ x.1 := by
  intro q hq he
  have h2 : (x.1 :: (pre.map (·.1) ++ rest.map (·.1))).Nodup := by
    rw [← List.nodup_middle]
    simpa using h
  apply (List.nodup_cons.mp h2).1
  rw [← List.map_append]
  exact List.mem_map.mpr ⟨q, hq, he⟩

theorem removePass_fst (bkeys : List String) :
    ∀ (m : List (Nat × ManifestItem)) (d : List (String × Nat)),
      (removePass bkeys m d).1 = m.filter (fun p => !removeCond bkeys p.2) := by
  intro m
  induction m with
  | nil => intro d; rfl
  | cons p rest ih =>
    intro d
    obtain ⟨t, it⟩ := p
    by_cases h : removeCond bkeys it = true
    · have hfil : List.filter (fun p => !removeCond bkeys p.2) ((t, it) :: rest)
          = List.filter (fun p => !removeCond bkeys p.2) rest := by
        rw [List.filter_cons, if_neg (by simp [h])]
      rw [removePass, if_pos h, hfil]
      exact ih _
    · have hfalse : removeCond bkeys it = false := Bool.not_eq_true _ ▸ h
      have hfil : List.filter (fun p => !removeCond bkeys p.2) ((t, it) :: rest)
          = (t, it) :: List.filter (fun p => !removeCond bkeys p.2) rest := by
        rw [List.filter_cons, if_pos (by simp [hfalse])]
      rw [removePass, if_neg h, hfil]
      show (t, it) :: (removePass bkeys rest d).1 = (t, it) :: _
      rw [ih d]

theorem removePass_dictInv (bkeys : List String) :
    ∀ (m pre : List (Nat × ManifestItem)) (d : List (String × Nat)),
      ((pre ++ m).map (·.1)).Nodup →
      (∀ (t1 : Nat) (it1 : ManifestItem) (t2 : Nat) (it2 : ManifestItem) (k : String),
        (t1, it1) ∈ pre ++ m → (t2, it2) ∈ pre ++ m → it1.id = some k →
        it2.id = some k → k ≠ "" → t1 = t2) →
      (∀ p ∈ pre, removeCond bkeys p.2 = false) →
      (∀ (k : String) (t : Nat), dictGet d k = some t ↔
        ∃ it, (t, it) ∈ pre ++ m ∧ it.id = some k ∧ k ≠ "") →
      ∀ (k : String) (t : Nat), dictGet (removePass bkeys m d).2 k = some t ↔
        ∃ it, (t, it) ∈ pre ++ (removePass bkeys m d).1 ∧ it.id = some k ∧ k ≠ "" := by
  intro m
  induction m with
  | nil =>
    intro pre d _ _ _ hInv k t
    exact hInv k t
  | cons p rest ih =>
    intro pre d hTags hUniq hPre hInv k t
    obtain ⟨t0, it0⟩ := p
    rw [removePass]
    by_cases h : removeCond bkeys it0 = true
    · rw [if_pos h]
      refine ih pre _ (tagsNodup_drop_mid pre rest (t0, it0) hTags)
        (fun t1 it1 t2 it2 k0 m1 m2 => hUniq t1 it1 t2 it2 k0
          (mem_append_drop_mid pre rest (t0, it0) (t1, it1) m1)
          (mem_append_drop_mid pre rest (t0, it0) (t2, it2) m2))
        hPre ?_ k t
      intro k' t'
      by_cases htr : truthyId it0 = true
      · rw [if_pos htr]
        obtain ⟨hid0, hne0⟩ := truthy_id_some it0 htr
        by_cases hkk : k' = idStr it0
        · rw [hkk, dictGet_erase_self]
          constructor
          · intro hcon; cases hcon
          · rintro ⟨it, hm, hi, hk⟩
            exfalso
            have htag : t' = t0 := hUniq t' it t0 it0 (idStr it0)
              (mem_append_drop_mid pre rest (t0, it0) (t', it) hm)
              (List.mem_append.mpr (Or.inr (List.mem_cons_self _ _)))
              hi hid0 hne0
            exact tagsNodup_ne_mid pre rest (t0, it0) hTags (t', it) hm htag
        · rw [dictGet_erase_ne d (idStr it0) k' hkk, hInv k' t']
          constructor
          · rintro ⟨it, hm, hi, hk⟩
            refine ⟨it, ?_, hi, hk⟩
            rcases List.mem_append.mp hm with h1 | h1
            · exact List.mem_append.mpr (Or.inl h1)
            · rcases List.mem_cons.mp h1 with h2 | h2
              · exfalso
                have : it = it0 := congrArg Prod.snd h2
                rw [this, hid0] at hi
                exact hkk (Option.some.inj hi).symm
              · exact List.mem_append.mpr (Or.inr h2)
          · rintro ⟨it, hm, hi, hk⟩
            exact ⟨it, mem_append_drop_mid pre rest (t0, it0) (t', it) hm, hi, hk⟩
      · rw [if_neg htr, hInv k' t']
        constructor
        · rintro ⟨it, hm, hi, hk⟩
          refine ⟨it, ?_, hi, hk⟩
          rcases List.mem_append.mp hm with h1 | h1
          · exact List.mem_append.mpr (Or.inl h1)
          · rcases List.mem_cons.mp h1 with h2 | h2
            · exfalso
              have he : it = it0 := congrArg Prod.snd h2
              rw [he] at hi
              exact htr (truthy_of_id it0 k' hi hk).1
            · exact List.mem_append.mpr (Or.inr h2)
        · rintro ⟨it, hm, hi, hk⟩
          exact ⟨it, mem_append_drop_mid pre rest (t0, it0) (t', it) hm, hi, hk⟩
    · rw [if_neg h]
      have hassoc : (pre ++ [(t0, it0)]) ++ rest = pre ++ (t0, it0) :: rest := by
        rw [List.append_assoc]
        rfl
      have hTags2 : (((pre ++ [(t0, it0)]) ++ rest).map (·.1)).Nodup := by
        rw [hassoc]; exact hTags
      have hUniq2 : ∀ (t1 : Nat) (it1 : ManifestItem) (t2 : Nat) (it2 : ManifestItem)
          (k0 : String), (t1, it1) ∈ (pre ++ [(t0, it0)]) ++ rest →
          (t2, it2) ∈ (pre ++ [(t0, it0)]) ++ rest → it1.id = some k0 →
          it2.id = some k0 → k0 ≠ "" → t1 = t2 := by
        rw [hassoc]; exact hUniq
      have hPre2 : ∀ p ∈ pre ++ [(t0, it0)], removeCond bkeys p.2 = false := by
        intro q hq
        rcases List.mem_append.mp hq with h1 | h1
        · exact hPre q h1
        · rcases List.mem_cons.mp h1 with h2 | h2
          · rw [h2]
            exact Bool.not_eq_true _ ▸ h
          · cases h2
      have hInv2 : ∀ (k' : String) (t' : Nat), dictGet d k' = some t' ↔
          ∃ it, (t', it) ∈ (pre ++ [(t0, it0)]) ++ rest ∧ it.id = some k' ∧ k' ≠ "" := by
        rw [hassoc]; exact hInv
      have hres := ih (pre ++ [(t0, it0)]) d hTags2 hUniq2 hPre2 hInv2 k t
      have hassoc2 : (pre ++ [(t0, it0)]) ++ (removePass bkeys rest d).1 =
          pre ++ (t0, it0) :: (removePass bkeys rest d).1 := by
        rw [List.append_assoc]
        rfl
      rw [hassoc2] at hres
      exact hres

theorem binFor_none_key_not_mem (bins : List (String × HwpxBinaryItem))
    (it : ManifestItem) (bid : String) (hid : it.id = some bid)
    (h : ∀ q ∈ bins, q.1 ≠ bid) : binFor bins it = none := by
  apply List.find?_eq_none.mpr
  intro q hq hcon
  have h2 : it.id = some q.1 := of_decide_eq_true hcon
  rw [hid] at h2
  exact h q hq (Option.some.inj h2).symm

theorem binFor_cons_hit (p : String × HwpxBinaryItem)
    (bins : List (String × HwpxBinaryItem)) (it : ManifestItem)
    (h : idMatches it p.1 = true) : binFor (p :: bins) it = some p := by
  unfold binFor
  exact List.find?_cons_of_pos bins h

theorem binFor_cons_miss (p : String × HwpxBinaryItem)
    (bins : List (String × HwpxBinaryItem)) (it : ManifestItem)
    (h : idMatches it p.1 = false) : binFor (p :: bins) it = binFor bins it := by
  unfold binFor
  exact List.find?_cons_of_neg bins (by simp [h])

theorem applyBin_hit (bins : List (String × HwpxBinaryItem)) (it : ManifestItem)
    (q : String × HwpxBinaryItem) (h : binFor bins it = some q) :
    applyBin bins it = setBinAttrs it q.2.filename := by
  unfold applyBin
  rw [h]

theorem applyBin_miss (bins : List (String × HwpxBinaryItem)) (it : ManifestItem)
    (h : binFor bins it = none) : applyBin bins it = it := by
  unfold applyBin
  rw [h]

theorem updAt_snd_id (t : Nat) (f : String) (p : Nat × ManifestItem) :
    (updAt t f p).2.id = p.2.id := by
  unfold updAt
  dsimp only
  split <;> rfl

theorem updAt_mem {t : Nat} {f : String} {m : List (Nat × ManifestItem)}
    {t' : Nat} {it' : ManifestItem} (h : (t', it') ∈ m.map (updAt t f)) :
    ∃ it1, (t', it1) ∈ m ∧ it' = (if t' = t then setBinAttrs it1 f else it1) := by
  obtain ⟨q, hq, he⟩ := List.mem_map.mp h
  have hfst : q.1 = t' := congrArg Prod.fst he
  refine ⟨q.2, ?_, ?_⟩
  · have hqe : q = (t', q.2) := by rw [← hfst]
    rw [← hqe]
    exact hq
  · have hsnd2 : (updAt t f q).2 = it' := congrArg Prod.snd he
    rw [← hsnd2]
    unfold updAt
    dsimp only
    rw [hfst]

theorem updAt_mem_rev {t : Nat} {f : String} {m : List (Nat × ManifestItem)}
    {t' : Nat} {it1 : ManifestItem} (h : (t', it1) ∈ m) :
    (t', if t' = t then setBinAttrs it1 f else it1) ∈ m.map (updAt t f) :=
  List.mem_map.mpr ⟨(t', it1), h, rfl⟩

theorem updAt_if_id {t : Nat} {f : String} (it1 : ManifestItem) (t' : Nat) :
    (if t' = t then setBinAttrs it1 f else it1).id = it1.id := by
  split <;> rfl

theorem addPass_spec :
    ∀ (bins : List (String × HwpxBinaryItem)) (m : List (Nat × ManifestItem))
      (d : List (String × Nat)) (nt : Nat),
      (bins.map (·.1)).Nodup →
      (∀ p ∈ bins, p.1 ≠ "") →
      (∀ (k : String) (t : Nat), dictGet d k = some t ↔
        ∃ it, (t, it) ∈ m ∧ it.id = some k ∧ k ≠ "") →
      (∀ (t1 : Nat) (it1 : ManifestItem) (t2 : Nat) (it2 : ManifestItem) (k : String),
        (t1, it1) ∈ m → (t2, it2) ∈ m → it1.id = some k → it2.id = some k →
        k ≠ "" → t1 = t2) →
      (∀ (t : Nat) (it1 it2 : ManifestItem), (t, it1) ∈ m → (t, it2) ∈ m → it1 = it2) →
      (∀ p ∈ m, p.1 < nt) →
      (addPass bins m d nt).1.map (·.2)
        = (m.map (·.2)).map (applyBin bins) ++
          (bins.filter (fun q => !((m.map (·.2)).any (fun it => idMatches it q.1)))).map
            (fun q => newManifestItem q.1 q.2.filename) := by
  intro bins
  induction bins with
  | nil =>
    intro m d nt _ _ _ _ _ _
    rw [addPass]
    have h2 : ∀ it ∈ m.map (·.2), applyBin [] it = it := fun it _ => applyBin_miss [] it rfl
    have h1 : (m.map (·.2)).map (applyBin []) = m.map (·.2) := by
      rw [listMapCongr (applyBin []) (fun it => it) (m.map (·.2)) h2]
      exact List.map_id' _
    rw [h1, List.filter_nil, List.map_nil, List.append_nil]
  | cons pb rest ih =>
    intro m d nt hnd hne hInv hUniq hTagFun hLt
    obtain ⟨bid, b⟩ := pb
    have hbid : bid ≠ "" := hne (bid, b) (List.mem_cons_self _ _)
    have hndr : (rest.map (·.1)).Nodup := by
      simp only [List.map_cons, List.nodup_cons] at hnd
      exact hnd.2
    have hbid_notin : ∀ q ∈ rest, q.1 ≠ bid := by
      intro q hq he
      simp only [List.map_cons, List.nodup_cons] at hnd
      exact hnd.1 (List.mem_map.mpr ⟨q, hq, he⟩)
    have hner : ∀ p ∈ rest, p.1 ≠ "" := fun p hp => hne p (List.mem_cons_of_mem _ hp)
    rw [addPass]
    cases hd : dictGet d bid with
    | some t =>
      obtain ⟨it0, hm0, hid0, _⟩ := (hInv bid t).mp hd
      have hInv2 : ∀ (k : String) (t' : Nat), dictGet d k = some t' ↔
          ∃ it', (t', it') ∈ m.map (updAt t b.filename) ∧ it'.id = some k ∧ k ≠ "" := by
        intro k t'
        rw [hInv k t']
        constructor
        · rintro ⟨it1, hm1, hi1, hk1⟩
          refine ⟨if t' = t then setBinAttrs it1 b.filename else it1,
            updAt_mem_rev hm1, ?_, hk1⟩
          rw [updAt_if_id]
          exact hi1
        · rintro ⟨it', hm', hi', hk'⟩
          obtain ⟨it1, hm1, he1⟩ := updAt_mem hm'
          refine ⟨it1, hm1, ?_, hk'⟩
          rw [he1, updAt_if_id] at hi'
          exact hi'
      have hUniq2 : ∀ (t1 : Nat) (it1 : ManifestItem) (t2 : Nat) (it2 : ManifestItem)
          (k : String), (t1, it1) ∈ m.map (updAt t b.filename) →
          (t2, it2) ∈ m.map (updAt t b.filename) → it1.id = some k →
          it2.id = some k → k ≠ "" → t1 = t2 := by
        intro t1 it1 t2 it2 k h1 h2 hi1 hi2 hk
        obtain ⟨j1, hj1, he1⟩ := updAt_mem h1
        obtain ⟨j2, hj2, he2⟩ := updAt_mem h2
        rw [he1, updAt_if_id] at hi1
        rw [he2, updAt_if_id] at hi2
        exact hUniq t1 j1 t2 j2 k hj1 hj2 hi1 hi2 hk
      have hTagFun2 : ∀ (t' : Nat) (it1 it2 : ManifestItem),
          (t', it1) ∈ m.map (updAt t b.filename) →
          (t', it2) ∈ m.map (updAt t b.filename) → it1 = it2 := by
        intro t' it1 it2 h1 h2
        obtain ⟨j1, hj1, he1⟩ := updAt_mem h1
        obtain ⟨j2, hj2, he2⟩ := updAt_mem h2
        have hj : j1 = j2 := hTagFun t' j1 j2 hj1 hj2
        rw [he1, he2, hj]
      have hLt2 : ∀ p ∈ m.map (updAt t b.filename), p.1 < nt := by
        intro p hp
        obtain ⟨j, hj, he⟩ := List.mem_map.mp hp
        have hf := congrArg Prod.fst he
        rw [← hf]
        exact hLt j hj
      have hih := ih (m.map (updAt t b.filename)) d nt hndr hner hInv2 hUniq2
        hTagFun2 hLt2
      have hsnd : (m.map (updAt t b.filename)).map (·.2)
          = m.map (fun p => if p.1 = t then setBinAttrs p.2 b.filename else p.2) := by
        rw [List.map_map]
        rfl
      have hmap_eq : ((m.map (updAt t b.filename)).map (·.2)).map (applyBin rest)
          = (m.map (·.2)).map (applyBin ((bid, b) :: rest)) := by
        rw [hsnd, List.map_map, List.map_map]
        apply listMapCongr
        intro q hq
        show applyBin rest (if q.1 = t then setBinAttrs q.2 b.filename else q.2)
          = applyBin ((bid, b) :: rest) q.2
        by_cases hqt : q.1 = t
        · have hq2 : q.2 = it0 := by
            apply hTagFun t q.2 it0 ?_ hm0
            have hqe : q = (t, q.2) := by rw [← hqt]
            rw [← hqe]
            exact hq
          rw [if_pos hqt, hq2]
          rw [applyBin_miss rest _ (binFor_none_key_not_mem rest _ bid
            (by rw [setBinAttrs_id]; exact hid0) hbid_notin)]
          rw [applyBin_hit ((bid, b) :: rest) it0 (bid, b)
            (binFor_cons_hit (bid, b) rest it0 (decide_eq_true hid0))]
        · have hq2id : idMatches q.2 bid = false := by
            cases hc : idMatches q.2 bid
            · rfl
            · exfalso
              have hcid : q.2.id = some bid := of_decide_eq_true hc
              exact hqt (hUniq q.1 q.2 t it0 bid hq hm0 hcid hid0 hbid)
          rw [if_neg hqt]
          unfold applyBin
          rw [binFor_cons_miss (bid, b) rest q.2 hq2id]
      have hany_bid : (m.map (·.2)).any (fun it => idMatches it bid) = true :=
        List.any_eq_true.mpr
          ⟨it0, List.mem_map.mpr ⟨(t, it0), hm0, rfl⟩, decide_eq_true hid0⟩
      have hany_eq : ∀ k : String,
          ((m.map (updAt t b.filename)).map (·.2)).any (fun it => idMatches it k)
          = (m.map (·.2)).any (fun it => idMatches it k) := by
        intro k
        rw [hsnd]
        apply listAnyMapCongr
        intro p hp
        show idMatches (if p.1 = t then setBinAttrs p.2 b.filename else p.2) k
          = idMatches p.2 k
        unfold idMatches
        rw [updAt_if_id]
      have hfil_eq : rest.filter
            (fun q => !(((m.map (updAt t b.filename)).map (·.2)).any
              (fun it => idMatches it q.1)))
          = rest.filter
            (fun q => !((m.map (·.2)).any (fun it => idMatches it q.1))) := by
        apply listFilterCongr
        intro q _
        rw [hany_eq q.1]
      have hfull_fil : ((bid, b) :: rest).filter
            (fun q => !((m.map (·.2)).any (fun it => idMatches it q.1)))
          = rest.filter
            (fun q => !((m.map (·.2)).any (fun it => idMatches it q.1))) := by
        rw [List.filter_cons, if_neg (by simp [hany_bid])]
      show (addPass rest (m.map (updAt t b.filename)) d nt).1.map (·.2) = _
      rw [hih, hmap_eq, hfil_eq, hfull_fil]
    | none =>
      have hnobid : ∀ (t' : Nat) (it' : ManifestItem), (t', it') ∈ m →
          it'.id ≠ some bid := by
        intro t' it' hm' hi'
        have h2 : dictGet d bid = some t' := (hInv bid t').mpr ⟨it', hm', hi', hbid⟩
        rw [hd] at h2
        cases h2
      have hInv2 : ∀ (k : String) (t' : Nat), dictGet (dictPut d bid nt) k = some t' ↔
          ∃ it', (t', it') ∈ m ++ [(nt, newManifestItem bid b.filename)] ∧
            it'.id = some k ∧ k ≠ "" := by
        intro k t'
        by_cases hkb : k = bid
        · rw [hkb, dictGet_put_self]
          constructor
          · intro hsome
            have hnt : nt = t' := Option.some.inj hsome
            refine ⟨newManifestItem bid b.filename, ?_, rfl, hbid⟩
            rw [← hnt]
            exact List.mem_append.mpr (Or.inr (List.mem_cons_self _ _))
          · rintro ⟨it', hm', hi', _⟩
            rcases List.mem_append.mp hm' with h1 | h1
            · exact absurd hi' (hnobid t' it' h1)
            · rcases List.mem_cons.mp h1 with h2 | h2
              · have hte : t' = nt := congrArg Prod.fst h2
                rw [hte]
              · cases h2
        · rw [dictGet_put_ne d bid k nt hkb, hInv k t']
          constructor
          · rintro ⟨it', hm', hi', hk'⟩
            exact ⟨it', List.mem_append.mpr (Or.inl hm'), hi', hk'⟩
          · rintro ⟨it', hm', hi', hk'⟩
            rcases List.mem_append.mp hm' with h1 | h1
            · exact ⟨it', h1, hi', hk'⟩
            · rcases List.mem_cons.mp h1 with h2 | h2
              · exfalso
                have hei : it' = newManifestItem bid b.filename := congrArg Prod.snd h2
                rw [hei] at hi'
                have hbk : some bid = some k := hi'
                exact hkb (Option.some.inj hbk).symm
              · cases h2
      have hUniq2 : ∀ (t1 : Nat) (it1 : ManifestItem) (t2 : Nat) (it2 : ManifestItem)
          (k : String), (t1, it1) ∈ m ++ [(nt, newManifestItem bid b.filename)] →
          (t2, it2) ∈ m ++ [(nt, newManifestItem bid b.filename)] →
          it1.id = some k → it2.id = some k → k ≠ "" → t1 = t2 := by
        intro t1 it1 t2 it2 k h1 h2 hi1 hi2 hk
        rcases List.mem_append.mp h1 with g1 | g1 <;>
          rcases List.mem_append.mp h2 with g2 | g2
        · exact hUniq t1 it1 t2 it2 k g1 g2 hi1 hi2 hk
        · exfalso
          rcases List.mem_cons.mp g2 with g3 | g3
          · have he2 : it2 = newManifestItem bid b.filename := congrArg Prod.snd g3
            rw [he2] at hi2
            have hbk : some bid = some k := hi2
            have hke : k = bid := (Option.some.inj hbk).symm
            rw [hke] at hi1
            exact hnobid t1 it1 g1 hi1
          · cases g3
        · exfalso
          rcases List.mem_cons.mp g1 with g3 | g3
          · have he1 : it1 = newManifestItem bid b.filename := congrArg Prod.snd g3
            rw [he1] at hi1
            have hbk : some bid = some k := hi1
            have hke : k = bid := (Option.some.inj hbk).symm
            rw [hke] at hi2
            exact hnobid t2 it2 g2 hi2
          · cases g3
        · rcases List.mem_cons.mp g1 with g3 | g3
          · rcases List.mem_cons.mp g2 with g4 | g4
            · have e1 : t1 = nt := congrArg Prod.fst g3
              have e2 : t2 = nt := congrArg Prod.fst g4
              rw [e1, e2]
            · cases g4
          · cases g3
      have hTagFun2 : ∀ (t' : Nat) (it1 it2 : ManifestItem),
          (t', it1) ∈ m ++ [(nt, newManifestItem bid b.filename)] →
          (t', it2) ∈ m ++ [(nt, newManifestItem bid b.filename)] → it1 = it2 := by
        intro t' it1 it2 h1 h2
        rcases List.mem_append.mp h1 with g1 | g1 <;>
          rcases List.mem_append.mp h2 with g2 | g2
        · exact hTagFun t' it1 it2 g1 g2
        · exfalso
          rcases List.mem_cons.mp g2 with g3 | g3
          · have hte : t' = nt := congrArg Prod.fst g3
            rw [hte] at g1
            exact absurd (hLt (nt, it1) g1) (lt_irrefl nt)
          · cases g3
        · exfalso
          rcases List.mem_cons.mp g1 with g3 | g3
          · have hte : t' = nt := congrArg Prod.fst g3
            rw [hte] at g2
            exact absurd (hLt (nt, it2) g2) (lt_irrefl nt)
          · cases g3
        · rcases List.mem_cons.mp g1 with g3 | g3
          · rcases List.mem_cons.mp g2 with g4 | g4
            · have e1 : it1 = newManifestItem bid b.filename := congrArg Prod.snd g3
              have e2 : it2 = newManifestItem bid b.filename := congrArg Prod.snd g4
              rw [e1, e2]
            · cases g4
          · cases g3
      have hLt2 : ∀ p ∈ m ++ [(nt, newManifestItem bid b.filename)], p.1 < nt + 1 := by
        intro p hp
        rcases List.mem_append.mp hp with g1 | g1
        · exact Nat.lt_succ_of_lt (hLt p g1)
        · rcases List.mem_cons.mp g1 with g2 | g2
          · rw [g2]
            exact Nat.lt_succ_self nt
          · cases g2
      have hih := ih (m ++ [(nt, newManifestItem bid b.filename)]) (dictPut d bid nt)
        (nt + 1) hndr hner hInv2 hUniq2 hTagFun2 hLt2
      have happ : (m ++ [(nt, newManifestItem bid b.filename)]).map (·.2)
          = m.map (·.2) ++ [newManifestItem bid b.filename] := by
        rw [List.map_append]
        rfl
      have hnew_miss : applyBin rest (newManifestItem bid b.filename)
          = newManifestItem bid b.filename :=
        applyBin_miss rest _ (binFor_none_key_not_mem rest _ bid rfl hbid_notin)
      have hsingle : [newManifestItem bid b.filename].map (applyBin rest)
          = [newManifestItem bid b.filename] := by
        rw [List.map_cons, List.map_nil, hnew_miss]
      have hmap_eq : (m.map (·.2)).map (applyBin rest)
          = (m.map (·.2)).map (applyBin ((bid, b) :: rest)) := by
        apply listMapCongr
        intro it hit
        obtain ⟨q, hq, he⟩ := List.mem_map.mp hit
        have hmiss : idMatches it bid = false := by
          cases hc : idMatches it bid
          · rfl
          · exfalso
            have hcid : it.id = some bid := of_decide_eq_true hc
            rw [← he] at hcid
            exact hnobid q.1 q.2 hq hcid
        unfold applyBin
        rw [binFor_cons_miss (bid, b) rest it hmiss]
      have hany_false : (m.map (·.2)).any (fun it => idMatches it bid) = false := by
        cases hc : (m.map (·.2)).any (fun it => idMatches it bid)
        · rfl
        · exfalso
          obtain ⟨it', hmem', hpred⟩ := List.any_eq_true.mp hc
          obtain ⟨q, hq, he⟩ := List.mem_map.mp hmem'
          rw [← he] at hpred
          exact hnobid q.1 q.2 hq (of_decide_eq_true hpred)
      have hfull_fil : ((bid, b) :: rest).filter
            (fun q => !((m.map (·.2)).any (fun it => idMatches it q.1)))
          = (bid, b) :: rest.filter
            (fun q => !((m.map (·.2)).any (fun it => idMatches it q.1))) := by
        rw [List.filter_cons, if_pos (by simp [hany_false])]
      have hfil_eq : rest.filter (fun q =>
            !(((m ++ [(nt, newManifestItem bid b.filename)]).map (·.2)).any
              (fun it => idMatches it q.1)))
          = rest.filter
            (fun q => !((m.map (·.2)).any (fun it => idMatches it q.1))) := by
        apply listFilterCongr
        intro q hq
        have hnq : idMatches (newManifestItem bid b.filename) q.1 = false := by
          apply decide_eq_false
          intro hcon
          have hbq : some bid = some q.1 := hcon
          exact hbid_notin q hq (Option.some.inj hbq).symm
        rw [happ, List.any_append]
        simp [hnq]
      show (addPass rest (m ++ [(nt, newManifestItem bid b.filename)])
        (dictPut d bid nt) (nt + 1)).1.map (·.2) = _
      rw [hih, hfil_eq, happ, List.map_append, hsingle, hmap_eq, hfull_fil,
        List.map_cons, List.append_assoc]
      rfl

theorem applyBin_id (bins : List (String × HwpxBinaryItem)) (it : ManifestItem) :
    (applyBin bins it).id = it.id := by
  unfold applyBin
  cases hbf : binFor bins it with
  | none => rfl
  | some q => rfl

theorem filter_map_snd (bkeys : List String) :
    ∀ m : List (Nat × ManifestItem),
      (m.filter (fun p => !removeCond bkeys p.2)).map (·.2)
        = (m.map (·.2)).filter (fun it => !removeCond bkeys it) := by
  intro m
  induction m with
  | nil => rfl
  | cons p rest ih =>
    rw [List.filter_cons, List.map_cons, List.filter_cons]
    by_cases h : removeCond bkeys p.2 = true
    · rw [if_neg (by simp [h]), if_neg (by simp [h])]
      exact ih
    · have hf : removeCond bkeys p.2 = false := Bool.not_eq_true _ ▸ h
      rw [if_pos (by simp [hf]), if_pos (by simp [hf]), List.map_cons, ih]

theorem pairwise_filter_id_len (bid : String) (hbid : bid ≠ "") :
    ∀ l : List ManifestItem,
      l.Pairwise (fun a b => ∀ k : String, k ≠ "" → a.id = some k → b.id ≠ some k) →
      (l.filter (fun it => idMatches it bid)).length ≤ 1 := by
  intro l
  induction l with
  | nil => intro _; simp
  | cons a rest ih =>
    intro hpw
    rw [List.pairwise_cons] at hpw
    rw [List.filter_cons]
    by_cases h : idMatches a bid = true
    · rw [if_pos h]
      have hrest : rest.filter (fun it => idMatches it bid) = [] := by
        apply List.filter_eq_nil_iff.mpr
        intro it hit hcon
        exact hpw.1 it hit bid hbid (of_decide_eq_true h) (of_decide_eq_true hcon)
      rw [hrest]
      simp
    · rw [if_neg h]
      exact ih hpw.2

theorem nodup_key_filter (bid : String) (b : HwpxBinaryItem) :
    ∀ bl : List (String × HwpxBinaryItem), (bl.map (·.1)).Nodup →
      (bid, b) ∈ bl →
      bl.filter (fun q => decide (q.1 = bid)) = [(bid, b)] := by
  intro bl
  induction bl with
  | nil => intro _ hm; cases hm
  | cons a rest ih =>
    intro hnd hm
    simp only [List.map_cons, List.nodup_cons] at hnd
    rw [List.filter_cons]
    rcases List.mem_cons.mp hm with h1 | h1
    · have ha1 : a.1 = bid := (congrArg Prod.fst h1).symm
      rw [if_pos (by simp [ha1])]
      have hrest : rest.filter (fun q => decide (q.1 = bid)) = [] := by
        apply List.filter_eq_nil_iff.mpr
        intro q hq hcon
        apply hnd.1
        rw [ha1]
        exact List.mem_map.mpr ⟨q, hq, of_decide_eq_true hcon⟩
      rw [hrest, ← h1]
    · have hab : decide (a.1 = bid) = false := by
        apply decide_eq_false
        intro hcon
        apply hnd.1
        rw [hcon]
        exact List.mem_map.mpr ⟨(bid, b), h1, rfl⟩
      rw [if_neg (by simp [hab])]
      exact ih hnd.2 h1

theorem nodup_key_unique (bid : String) (b : HwpxBinaryItem)
    (bl : List (String × HwpxBinaryItem)) (hnd : (bl.map (·.1)).Nodup)
    (hm : (bid, b) ∈ bl) : ∀ q ∈ bl, q.1 = bid → q = (bid, b) := by
  intro q hq hqb
  have hf := nodup_key_filter bid b bl hnd hm
  have hqf : q ∈ bl.filter (fun r => decide (r.1 = bid)) :=
    List.mem_filter.mpr ⟨hq, decide_eq_true hqb⟩
  rw [hf] at hqf
  exact List.mem_singleton.mp hqf

theorem specManifestRewrite_exact (items : List ManifestItem)
    (bins : List (String × HwpxBinaryItem))
    (huniq : items.Pairwise
      (fun a b => ∀ k : String, k ≠ "" → a.id = some k → b.id ≠ some k))
    (hnd : (bins.map (·.1)).Nodup) :
    ∀ p ∈ bins, p.1 ≠ "" →
      (((specManifestRewrite items bins).filter
        (fun it => idMatches it p.1)).length = 1 ∧
      ∀ it ∈ specManifestRewrite items bins, it.id = some p.1 →
        it.href = some ("BinData/" ++ p.2.filename) ∧
        it.mediaType = some (guess_media_type p.2.filename) ∧
        it.isEmbeded = some "1") := by
  rintro ⟨bid, b⟩ hp hbid
  have hkw : (keptItems items bins).Pairwise
      (fun a b => ∀ k : String, k ≠ "" → a.id = some k → b.id ≠ some k) :=
    List.Pairwise.sublist (List.filter_sublist items) huniq
  have hsp : specManifestRewrite items bins
      = (keptItems items bins).map (applyBin bins) ++
        (bins.filter (fun q =>
          !((keptItems items bins).any (fun it => idMatches it q.1)))).map
          (fun q => newManifestItem q.1 q.2.filename) := rfl
  have hAcount : (((keptItems items bins).map (applyBin bins)).filter
      (fun it => idMatches it bid)).length
      = ((keptItems items bins).filter (fun it => idMatches it bid)).length := by
    have hcongr := listFilterCongr
      ((fun it => idMatches it bid) ∘ applyBin bins)
      (fun it => idMatches it bid) (keptItems items bins)
      (fun it _ => by
        show idMatches (applyBin bins it) bid = idMatches it bid
        unfold idMatches
        rw [applyBin_id])
    rw [List.filter_map, hcongr, List.length_map]
  constructor
  · rw [hsp, List.filter_append, List.length_append]
    by_cases hAny : (keptItems items bins).any (fun it => idMatches it bid) = true
    · have hle := pairwise_filter_id_len bid hbid (keptItems items bins) hkw
      obtain ⟨itw, hitw, hprw⟩ := List.any_eq_true.mp hAny
      have hpos : 0 < ((keptItems items bins).filter
          (fun it => idMatches it bid)).length :=
        List.length_pos_of_mem (List.mem_filter.mpr ⟨hitw, hprw⟩)
      have hB0 : ((bins.filter (fun q =>
          !((keptItems items bins).any (fun it => idMatches it q.1)))).map
          (fun q => newManifestItem q.1 q.2.filename)).filter
          (fun it => idMatches it bid) = [] := by
        apply List.filter_eq_nil_iff.mpr
        intro it hit hcon
        obtain ⟨q, hq, he⟩ := List.mem_map.mp hit
        obtain ⟨hqbins, hqfil⟩ := List.mem_filter.mp hq
        rw [← he] at hcon
        have h2 : some q.1 = some bid := of_decide_eq_true hcon
        have hq1 : q.1 = bid := Option.some.inj h2
        rw [hq1, hAny] at hqfil
        simp at hqfil
      rw [hAcount, hB0]
      simp only [List.length_nil]
      omega
    · have hAnyF : (keptItems items bins).any (fun it => idMatches it bid) = false :=
        Bool.not_eq_true _ ▸ hAny
      have hkf : (keptItems items bins).filter (fun it => idMatches it bid) = [] := by
        apply List.filter_eq_nil_iff.mpr
        intro it hit hcon
        exact hAny (List.any_eq_true.mpr ⟨it, hit, hcon⟩)
      have hB1 : ((bins.filter (fun q =>
          !((keptItems items bins).any (fun it => idMatches it q.1)))).map
          (fun q => newManifestItem q.1 q.2.filename)).filter
          (fun it => idMatches it bid)
          = [newManifestItem bid b.filename] := by
        rw [List.filter_map]
        have hc1 := listFilterCongr
          ((fun it => idMatches it bid) ∘ (fun q => newManifestItem q.1 q.2.filename))
          (fun q : String × HwpxBinaryItem => decide (q.1 = bid))
          (bins.filter (fun q =>
            !((keptItems items bins).any (fun it => idMatches it q.1))))
          (fun q _ => by
            show idMatches (newManifestItem q.1 q.2.filename) bid = decide (q.1 = bid)
            unfold idMatches
            apply decide_eq_decide.mpr
            constructor
            · intro h
              exact Option.some.inj (show some q.1 = some bid from h)
            · intro h
              show some q.1 = some bid
              rw [h])
        rw [hc1, List.filter_filter]
        have hc2 := listFilterCongr
          (fun q : String × HwpxBinaryItem => decide (q.1 = bid) &&
            !((keptItems items bins).any (fun it => idMatches it q.1)))
          (fun q : String × HwpxBinaryItem => decide (q.1 = bid))
          bins
          (fun q _ => by
            show (decide (q.1 = bid) &&
                !((keptItems items bins).any (fun it => idMatches it q.1)))
              = decide (q.1 = bid)
            by_cases hqb : q.1 = bid
            · rw [hqb]
              simp [hAnyF]
            · simp [hqb])
        rw [hc2, nodup_key_filter bid b bins hnd hp]
        rw [List.map_cons, List.map_nil]
      rw [hAcount, hkf, hB1]
      simp
  · rw [hsp]
    intro it hit hid
    rcases List.mem_append.mp hit with hA | hB
    · obtain ⟨j, hj, he⟩ := List.mem_map.mp hA
      have hjid : j.id = some bid := by
        rw [← applyBin_id bins j, he]
        exact hid
      cases hbf : binFor bins j with
      | none =>
        exfalso
        have hbf2 : List.find? (fun q => idMatches j q.1) bins = none := hbf
        exact List.find?_eq_none.mp hbf2 (bid, b) hp (decide_eq_true hjid)
      | some q =>
        have hbf2 : List.find? (fun r => idMatches j r.1) bins = some q := hbf
        have hpq0 := List.find?_some hbf2
        have hpq : idMatches j q.1 = true := hpq0
        have hqmem : q ∈ bins := List.mem_of_find?_eq_some hbf2
        have hq1 : q.1 = bid := by
          have h3 : j.id = some q.1 := of_decide_eq_true hpq
          rw [hjid] at h3
          exact (Option.some.inj h3).symm
        have hqe : q = (bid, b) := nodup_key_unique bid b bins hnd hp q hqmem hq1
        rw [applyBin_hit bins j q hbf, hqe] at he
        rw [← he]
        exact ⟨rfl, rfl, rfl⟩
    · obtain ⟨q, hq, he⟩ := List.mem_map.mp hB
      obtain ⟨hqbins, _⟩ := List.mem_filter.mp hq
      rw [← he] at hid
      have hq1 : q.1 = bid := Option.some.inj (show some q.1 = some bid from hid)
      have hqe : q = (bid, b) := nodup_key_unique bid b bins hnd hp q hqbins hq1
      rw [← he, hqe]
      exact ⟨rfl, rfl, rfl⟩

/-- C9 counterexample: a template item whose href is *not* under BinData/
but whose id collides with an input binary id is hijacked — its href,
media-type and embedded flag are overwritten to reference the binary asset —
rather than left in place as the claim states. -/
theorem manifest_rewrite_counterexample :
    HwpxIrWriter.build_content_hpf
        [{ id := some "a", href := some "Contents/x.xml",
           mediaType := some "application/xml", isEmbeded := none }]
        [("a", { id := "a", filename := "img.png", data := "" })]
      = [{ id := some "a", href := some "BinData/img.png",
           mediaType := some "image/png", isEmbeded := some "1" }] ∧
    (some "BinData/img.png" : Option String) ≠ some "Contents/x.xml" :=
  ⟨by decide, by decide⟩

/-- C9 amended: with pairwise-distinct truthy template ids and an input map
with distinct non-empty keys, the rewritten manifest is exactly
`specManifestRewrite`: stale BinData items are pruned, every surviving item
whose id is carried by an input binary item -- even one whose href did not
point into BinData/ -- is redirected in place to that asset, unmatched
binary items are appended; consequently every input binary id ends up on
exactly one manifest item, carrying href BinData/<filename>, the guessed
media type, and the embedded flag. -/
theorem manifest_rewrite_amended (items : List ManifestItem)
    (bins : List (String × HwpxBinaryItem))
    (hpw : items.Pairwise (fun a b => truthyId a = true → a.id ≠ b.id))
    (hnd : (bins.map (·.1)).Nodup)
    (hne : ∀ p ∈ bins, p.1 ≠ "") :
    HwpxIrWriter.build_content_hpf items bins = specManifestRewrite items bins ∧
    ∀ p ∈ bins,
      (((HwpxIrWriter.build_content_hpf items bins).filter
        (fun it => idMatches it p.1)).length = 1 ∧
      ∀ it ∈ HwpxIrWriter.build_content_hpf items bins, it.id = some p.1 →
        it.href = some ("BinData/" ++ p.2.filename) ∧
        it.mediaType = some (guess_media_type p.2.filename) ∧
        it.isEmbeded = some "1") := by
  have huniq : items.Pairwise
      (fun a b => ∀ k : String, k ≠ "" → a.id = some k → b.id ≠ some k) := by
    refine List.Pairwise.imp ?_ hpw
    intro a b hab k hk ha hb2
    exact hab (truthy_of_id a k ha hk).1 (by rw [ha, hb2])
  have hU0 := tagFrom_unique_ids items 0 huniq
  have hT0 := tagFrom_tags_nodup items 0
  have hInv0 : ∀ (k : String) (t : Nat),
      dictGet (buildDict (tagFrom 0 items) []) k = some t ↔
      ∃ it, (t, it) ∈ tagFrom 0 items ∧ it.id = some k ∧ k ≠ "" := by
    intro k t
    constructor
    · intro h
      rcases buildDict_mem (tagFrom 0 items) [] k t h with h1 | h1
      · exact h1
      · cases h1
    · rintro ⟨it, hm, hi, hk⟩
      exact buildDict_hit (tagFrom 0 items) [] k t it hT0 hU0 hm hi hk
  have hPre0 : ∀ p ∈ ([] : List (Nat × ManifestItem)),
      removeCond (bins.map (·.1)) p.2 = false :=
    fun p hp => absurd hp (List.not_mem_nil p)
  have hInv1 := removePass_dictInv (bins.map (·.1)) (tagFrom 0 items) []
    (buildDict (tagFrom 0 items) []) hT0 hU0 hPre0 hInv0
  have hm1 := removePass_fst (bins.map (·.1)) (tagFrom 0 items)
    (buildDict (tagFrom 0 items) [])
  have hsub : ∀ q ∈ (removePass (bins.map (·.1)) (tagFrom 0 items)
      (buildDict (tagFrom 0 items) [])).1, q ∈ tagFrom 0 items := by
    intro q hq
    rw [hm1] at hq
    exact (List.mem_filter.mp hq).1
  have hU1 : ∀ (t1 : Nat) (it1 : ManifestItem) (t2 : Nat) (it2 : ManifestItem)
      (k : String),
      (t1, it1) ∈ (removePass (bins.map (·.1)) (tagFrom 0 items)
        (buildDict (tagFrom 0 items) [])).1 →
      (t2, it2) ∈ (removePass (bins.map (·.1)) (tagFrom 0 items)
        (buildDict (tagFrom 0 items) [])).1 →
      it1.id = some k → it2.id = some k → k ≠ "" → t1 = t2 :=
    fun t1 it1 t2 it2 k m1 m2 => hU0 t1 it1 t2 it2 k (hsub _ m1) (hsub _ m2)
  have hT1 : (((removePass (bins.map (·.1)) (tagFrom 0 items)
      (buildDict (tagFrom 0 items) [])).1).map (·.1)).Nodup := by
    rw [hm1]
    exact List.Nodup.sublist (List.Sublist.map _ (List.filter_sublist _)) hT0
  have hTF1 := tagsNodup_tagFun _ hT1
  have hLt1 : ∀ p ∈ (removePass (bins.map (·.1)) (tagFrom 0 items)
      (buildDict (tagFrom 0 items) [])).1, p.1 < items.length := by
    intro p hp
    have h2 := tagFrom_tag_lt items 0 p (hsub p hp)
    omega
  have haddspec := addPass_spec bins
    (removePass (bins.map (·.1)) (tagFrom 0 items)
      (buildDict (tagFrom 0 items) [])).1
    (removePass (bins.map (·.1)) (tagFrom 0 items)
      (buildDict (tagFrom 0 items) [])).2
    items.length hnd hne hInv1 hU1 hTF1 hLt1
  have hm1snd : ((removePass (bins.map (·.1)) (tagFrom 0 items)
      (buildDict (tagFrom 0 items) [])).1).map (·.2)
      = items.filter (fun it => !removeCond (bins.map (·.1)) it) := by
    rw [hm1, filter_map_snd (bins.map (·.1)) (tagFrom 0 items),
      tagFrom_map_snd items 0]
  have hmain : HwpxIrWriter.build_content_hpf items bins
      = specManifestRewrite items bins := by
    have e0 : HwpxIrWriter.build_content_hpf items bins
        = ((addPass bins
            (removePass (bins.map (·.1)) (tagFrom 0 items)
              (buildDict (tagFrom 0 items) [])).1
            (removePass (bins.map (·.1)) (tagFrom 0 items)
              (buildDict (tagFrom 0 items) [])).2
            items.length).1).map (·.2) := rfl
    rw [e0, haddspec, hm1snd]
    rfl
  refine ⟨hmain, ?_⟩
  intro p hp
  rw [hmain]
  exact specManifestRewrite_exact items bins huniq hnd p hp (hne p hp)

theorem manifest_rewrite_amended_witness :
    (HwpxIrWriter.build_content_hpf
        [{ id := some "hd", href := some "Contents/header.xml",
           mediaType := some "application/xml", isEmbeded := none },
         { id := some "stale", href := some "BinData/stale.png",
           mediaType := some "image/png", isEmbeded := some "1" }]
        [("img1", { id := "img1", filename := "photo.png", data := "" })]
      = specManifestRewrite
        [{ id := some "hd", href := some "Contents/header.xml",
           mediaType := some "application/xml", isEmbeded := none },
         { id := some "stale", href := some "BinData/stale.png",
           mediaType := some "image/png", isEmbeded := some "1" }]
        [("img1", { id := "img1", filename := "photo.png", data := "" })]) ∧
    ∀ p ∈ [("img1",
        ({ id := "img1", filename := "photo.png", data := "" } : HwpxBinaryItem))],
      (((HwpxIrWriter.build_content_hpf
        [{ id := some "hd", href := some "Contents/header.xml",
           mediaType := some "application/xml", isEmbeded := none },
         { id := some "stale", href := some "BinData/stale.png",
           mediaType := some "image/png", isEmbeded := some "1" }]
        [("img1", { id := "img1", filename := "photo.png", data := "" })]).filter
        (fun it => idMatches it p.1)).length = 1 ∧
      ∀ it ∈ HwpxIrWriter.build_content_hpf
        [{ id := some "hd", href := some "Contents/header.xml",
           mediaType := some "application/xml", isEmbeded := none },
         { id := some "stale", href := some "BinData/stale.png",
           mediaType := some "image/png", isEmbeded := some "1" }]
        [("img1", { id := "img1", filename := "photo.png", data := "" })],
        it.id = some p.1 →
        it.href = some ("BinData/" ++ p.2.filename) ∧
        it.mediaType = some (guess_media_type p.2.filename) ∧
        it.isEmbeded = some "1") :=
  manifest_rewrite_amended
    [{ id := some "hd", href := some "Contents/header.xml",
       mediaType := some "application/xml", isEmbeded := none },
     { id := some "stale", href := some "BinData/stale.png",
       mediaType := some "image/png", isEmbeded := some "1" }]
    [("img1", { id := "img1", filename := "photo.png", data := "" })]
    (by decide) (by decide) (by decide)

end Pdf2Hwpx
